import Mathlib

/-!
# femira-lang: parser and virtual machine

A shallow embedding of `src/vm.cpp`, `include/vm.h` and `compiler/parser.cpp`,
followed by the properties established about them.

Conventions of the embedding

* `std::string` is a `String`; `length()` counts bytes, so it is `String.utf8ByteSize`.
* `std::cout` is the text written so far, `endl` is `"\n"`.
* a thrown `std::runtime_error` and the `std::out_of_range` of `vector::at` are
  constructors of the result type; so is behaviour the C++ standard leaves
  undefined (`top()`/`pop()` on an empty `std::stack`).
* `int` is a 32 bit two's-complement integer held in an `Int`; `+` wraps.
-/

namespace Femira

/-! ## include/vm.h -/

/-- The `enum Opcode`. -/
inductive Opcode where
  | ADD | SUB | MUL | DIV
  | PUSHV
  | PRINT | WAIT
  | RETURN
  deriving DecidableEq, Repr

/-- The C++ `std::string`. -/
abbrev string := String

/-- The result of `int + int`: the sum reduced into `[-2^31, 2^31)`. -/
def int_add (a b : Int) : Int :=
  (a + b + 2147483648) % 4294967296 - 2147483648

/-- The `struct Object` and the four structs derived from it. `base` is an
instance of `Object` itself. -/
inductive Object where
  | base
  | String (data : string)
  | Integer (data : Int)
  | Double (data : Float)
  | Null

/-- The virtual `tostring()`; `to_string(int)` is the decimal rendering,
`to_string(double)` the `%f` rendering. -/
def Object.tostring : Object → string
  | .base => "unknown datatype"
  | .String data => data
  | .Integer data => toString data
  | .Double data => toString data
  | .Null => "null"

/-- The `struct Instruction`; `data` is a pointer, `none` is `nullptr`. -/
structure Instruction where
  opcode : Opcode
  data : Option Object := none

abbrev Bytecode := List Instruction

/-- The `class VirtualMachine` together with the text it has written to
`std::cout`. The head of `run_stack` is the top of the stack; the stack holds
no null pointer, `push_stack` being the only way in. -/
structure VirtualMachine where
  running_bytecode : Bytecode := []
  run_stack : List Object := []
  cout : String := ""

/-- What a member function of the machine does: return normally, throw
`runtime_error(what)`, or leave the behaviour defined by the C++ standard.
The machine is kept in the first two cases. -/
inductive Outcome (α : Type) where
  | ok (value : α) (vm : VirtualMachine)
  | runtime_error (what : String) (vm : VirtualMachine)
  | undefined

/-! ## vm.cpp -/

/-- The table `opcode_to_string`. -/
def opcode_to_string : Opcode → String
  | .ADD => "add"
  | .SUB => "sub"
  | .MUL => "mul"
  | .DIV => "div"
  | .PUSHV => "pushv"
  | .PRINT => "print"
  | .WAIT => "wait"
  | .RETURN => "return"

/-- Embeds `VirtualMachine::errorf`. -/
def errorf {α : Type} (vm : VirtualMachine) (text : String) : Outcome α :=
  .runtime_error ("Runtime error: " ++ text) vm

/-- Embeds `VirtualMachine::push_stack`. -/
def push_stack (vm : VirtualMachine) (data : Option Object) : Outcome Unit :=
  match data with
  | none => errorf vm "Cannot push null pointer to stack"
  | some obj => .ok () { vm with run_stack := obj :: vm.run_stack }

/-- Embeds `VirtualMachine::pop_stack`. `run_stack.top()` is evaluated first; on an
empty stack that call has undefined behaviour, and the test `top == nullptr`
that follows it is never true of a stored pointer. -/
def pop_stack (vm : VirtualMachine) : Outcome Object :=
  match vm.run_stack with
  | [] => .undefined
  | top :: rest => .ok top { vm with run_stack := rest }

/-- The characters written by `for (i = 0; i < n; i++) cout << "-"`. -/
def dashes (n : Nat) : String :=
  String.mk (List.replicate n '-')

/-- How the body of the `switch` leaves the loop of `runf_bytecode`. -/
inductive Flow where
  | next
  | returned
  deriving DecidableEq, Repr

/-- The body of the execution loop of `runf_bytecode`: the `switch` on the
opcode of one instruction. `SUB`, `MUL` and `DIV` have no `case` and reach
`default: break`. The `sleep_for` of `WAIT` changes nothing in the machine. -/
def exec_instruction (vm : VirtualMachine) (instruction : Instruction) : Outcome Flow :=
  match instruction.opcode with
  | .ADD =>
    match pop_stack vm with
    | .undefined => .undefined
    | .runtime_error what vm1 => .runtime_error what vm1
    | .ok obj1 vm1 =>
      match pop_stack vm1 with
      | .undefined => .undefined
      | .runtime_error what vm2 => .runtime_error what vm2
      | .ok obj2 vm2 =>
        match obj1, obj2 with
        | .Integer integer, .Integer integer2 =>
          match push_stack vm2 (some (.Integer (int_add integer integer2))) with
          | .ok _ vm3 => .ok .next vm3
          | .runtime_error what vm3 => .runtime_error what vm3
          | .undefined => .undefined
        | .Double double_value, .Double double_value2 =>
          match push_stack vm2 (some (.Double (double_value + double_value2))) with
          | .ok _ vm3 => .ok .next vm3
          | .runtime_error what vm3 => .runtime_error what vm3
          | .undefined => .undefined
        | _, _ => .ok .next vm2
  | .PUSHV =>
    match push_stack vm instruction.data with
    | .ok _ vm1 => .ok .next vm1
    | .runtime_error what vm1 => .runtime_error what vm1
    | .undefined => .undefined
  | .RETURN => .ok .returned vm
  | .PRINT =>
    match pop_stack vm with
    | .undefined => .undefined
    | .runtime_error what vm1 => .runtime_error what vm1
    | .ok obj vm1 =>
      let to_print := obj.tostring
      .ok .next { vm1 with
        cout := vm1.cout ++ " " ++ dashes (to_print.utf8ByteSize + 4) ++ "\n"
          ++ (" | " ++ to_print ++ " | ") ++ "\n"
          ++ " " ++ dashes (to_print.utf8ByteSize + 4) ++ "\n" }
  | .WAIT =>
    match pop_stack vm with
    | .undefined => .undefined
    | .runtime_error what vm1 => .runtime_error what vm1
    | .ok _ vm1 => .ok .next vm1
  | _ => .ok .next vm

/-- The second `for` of `runf_bytecode`: the instructions in order, until one
returns, throws or the sequence ends. -/
def exec_loop (vm : VirtualMachine) : Bytecode → Outcome Unit
  | [] => .ok () vm
  | instruction :: rest =>
    match exec_instruction vm instruction with
    | .ok .next vm1 => exec_loop vm1 rest
    | .ok .returned vm1 => .ok () vm1
    | .runtime_error what vm1 => .runtime_error what vm1
    | .undefined => .undefined

/-- The first `for` of `runf_bytecode`, run when `trace` is set: one line per
instruction. -/
def trace_loop (vm : VirtualMachine) : Bytecode → VirtualMachine
  | [] => vm
  | instruction :: rest =>
    trace_loop
      { vm with
        cout := vm.cout ++ opcode_to_string instruction.opcode ++ "    "
          ++ (match instruction.data with
              | some data => data.tostring
              | none => "") ++ "\n" }
      rest

/-- Embeds `VirtualMachine::runf_bytecode`. -/
def runf_bytecode (vm : VirtualMachine) (bytecode : Bytecode) (trace : Bool) :
    Outcome Unit :=
  let vm0 := { vm with running_bytecode := bytecode }
  let vm1 := if trace then trace_loop vm0 bytecode else vm0
  exec_loop vm1 bytecode

/-! ## compiler/include/lexer.h -/

/-- Modelled from the spec: the `enum TokenType` that `parser.cpp` is written
against. The copy of `lexer.h` declares the enumerators up to `WHITESPACE`;
`parser.cpp` also refers to `NIL` ... `TYPE`, the kinds the spec lists as
boolean and null literals, `!`, `:`, `[`, `]`, `;` and the keywords. -/
inductive TokenType where
  | INT_TYPE | NULL_LITERAL | STRING_TYPE | DOUBLE_TYPE
  | IDENTIFIER | STRING | DIGIT
  | PLUS | MINUS | ASTERISK | SLASH | ASSIGN
  | EQ | NOTEQ
  | BIGGER | SMALLER
  | BIGGER_OR_EQ | SMALLER_OR_EQ
  | BEGIN | END
  | FUNCTION
  | LPAREN | RPAREN
  | COMMA | DOT | ARROW
  | RETURN | PRINT
  | WHITESPACE
  | NIL | TRUE | FALSE
  | ANNOTATE | NOT
  | IF | ELSE | WHILE | FOR
  | LSQPAREN | RSQPAREN
  | SEMICOLON | WAIT
  | AND | OR
  | TYPE
  deriving DecidableEq, Repr

/-- The `struct Token`. -/
structure Token where
  type : TokenType
  value : string
  position : Int
  deriving DecidableEq, Repr

/-! ## compiler/parser.cpp -/

/-- Modelled from the spec: the node classes of the missing `parser.h`, the
variants of the spec's `AstNode`. Each constructor has the name of the class
and the arguments `parser.cpp` gives to `new`; `IdentifierNode(start)` has no
type. -/
inductive AstNode where
  | BlockNode (nodes : List AstNode)
  | IfNode (success_block fail_block condition : AstNode)
  | ObjectNode (fields : List AstNode)
  | ArrayNode (elements : List AstNode)
  | WhileNode (condition block : AstNode)
  | BinaryOperationNode (left : AstNode) (operator_token : Token) (right : AstNode)
  | TypedefNode (id type : AstNode)
  | UnaryOperationNode (token : Token) (operand : AstNode)
  | CallNode (to_call : AstNode) (args : List AstNode)
  | IndexationNode (target index : AstNode)
  | ParenthisizedNode (expression : AstNode)
  | FunctionNode (identifier : AstNode) (args : List AstNode) (block return_type : AstNode)
  | LiteralNode (token : Token)
  | IdentifierNode (start : Token) (type : Option AstNode)

/-- An exception leaving the parser. -/
inductive Thrown where
  | runtime_error (what : String)
  | out_of_range
  deriving DecidableEq, Repr

/-- What a member function of the parser does: return a value, throw, read an
uninitialised variable, or run out of the fuel that bounds the depth of the
calls in this embedding. `position` is the cursor it leaves. -/
inductive Result (α : Type) where
  | ok (value : α) (position : Nat)
  | thrown (e : Thrown) (position : Nat)
  | undefined
  | out_of_fuel
  deriving DecidableEq

/-- Sequencing: the continuation runs when the first part returned. -/
def Result.bind {α β : Type} (r : Result α) (k : α → Nat → Result β) : Result β :=
  match r with
  | .ok value position => k value position
  | .thrown e position => .thrown e position
  | .undefined => .undefined
  | .out_of_fuel => .out_of_fuel

/-- The map `token_types_names`, read with `operator[]`: a key that is not in
the map gives the empty string. -/
def token_types_names : TokenType → String
  | .IDENTIFIER => "identifier"
  | .STRING => "string"
  | .DIGIT => "digit"
  | .NIL => "nil"
  | .TRUE => "true"
  | .FALSE => "false"
  | .PLUS => "+"
  | .MINUS => "-"
  | .ASTERISK => "*"
  | .SLASH => "/"
  | .ASSIGN => ":="
  | .ANNOTATE => ":"
  | .EQ => "?="
  | .NOTEQ => "!="
  | .BIGGER => ">"
  | .SMALLER => "<"
  | .BIGGER_OR_EQ => ">="
  | .SMALLER_OR_EQ => "<="
  | .NOT => "!"
  | .BEGIN => "\x7b"
  | .END => "\x7d"
  | .IF => "if"
  | .ELSE => "else"
  | .WHILE => "while"
  | .FOR => "for"
  | .FUNCTION => "fn"
  | .LPAREN => "("
  | .RPAREN => ")"
  | .LSQPAREN => "["
  | .RSQPAREN => "]"
  | .COMMA => ","
  | .DOT => "."
  | .ARROW => "->"
  | .RETURN => "return"
  | .PRINT => "print"
  | .WHITESPACE => "whitespace"
  | .SEMICOLON => "semicolon"
  | .WAIT => "wait"
  | _ => ""

def unary_token_types : List TokenType :=
  [.RETURN, .PRINT, .WAIT]

def literal_token_types : List TokenType :=
  [.NIL, .TRUE, .FALSE, .DIGIT, .STRING]

def binary_token_types : List TokenType :=
  [.PLUS, .MINUS, .ASTERISK, .SLASH, .EQ, .NOTEQ, .BIGGER, .SMALLER,
   .BIGGER_OR_EQ, .SMALLER_OR_EQ, .AND, .OR, .ASSIGN]

/-- Modelled from the spec: the default argument of
`parse_expression(bool ignore_binaries)`, declared in the missing `parser.h`;
the calls `parse_expression()` are `parse_expression(false)`. -/
def default_ignore_binaries : Bool := false

section Parser

variable (tokens : List Token)

/-- Embeds `Parser::is_token`. -/
def is_token (types : List TokenType) (position : Nat) : Bool :=
  match tokens[position]? with
  | none => false
  | some at_pos => decide (at_pos.type ∈ types)

/-- Embeds `Parser::match`: the value returned and the cursor afterwards. -/
def match_ (types : List TokenType) (position : Nat) : Bool × Nat :=
  if is_token tokens types position then (true, position + 1) else (false, position)

/-- Embeds `Parser::parser_errorf`. -/
def parser_errorf {α : Type} (position : Nat) (text : String) : Result α :=
  .thrown (.runtime_error ("Syntax error: " ++ text ++ ", at position: " ++ toString position))
    position

/-- The text built by the first loop of `Parser::eat`. -/
def expected_tokens (types : List TokenType) : String :=
  types.foldl (fun acc type => acc ++ (token_types_names type ++ " ")) ""

/-- Embeds `Parser::eat`. `tokens.at(position)` throws `std::out_of_range` when the
cursor is not below the number of tokens. -/
def eat (types : List TokenType) (position : Nat) : Result Token :=
  match tokens[position]? with
  | none => .thrown .out_of_range position
  | some token =>
    if is_token tokens types position then .ok token (position + 1)
    else parser_errorf position
      ("Expected token: " ++ expected_tokens types ++ ", given: " ++ token_types_names token.type)

/-- Embeds `Parser::parse_literal`. -/
def parse_literal (position : Nat) : Result AstNode :=
  (eat tokens literal_token_types position).bind fun token position =>
  .ok (.LiteralNode token) position

mutual

/-- Embeds `Parser::parse_expression`. When no branch of the chain is taken the local
`expression` is read without ever having been assigned. -/
def parse_expression : Nat → Bool → Nat → Result AstNode
  | 0, _, _ => .out_of_fuel
  | fuel + 1, ignore_binaries, position =>
    let started_position := position
    let subparsed := fun (expression : AstNode) (position : Nat) =>
      subparse fuel expression started_position ignore_binaries position
    if is_token tokens [.FUNCTION] position then
      (parse_function fuel position).bind subparsed
    else if is_token tokens literal_token_types position then
      (parse_literal tokens position).bind subparsed
    else if is_token tokens [.IDENTIFIER] position then
      (parse_identifier fuel position).bind subparsed
    else if is_token tokens [.LPAREN] position then
      (parse_parenthisized fuel position).bind subparsed
    else if is_token tokens unary_token_types position then
      (parse_unary fuel position).bind subparsed
    else if is_token tokens [.LSQPAREN] position then
      (parse_array fuel position).bind subparsed
    else if is_token tokens [.BEGIN] position then
      (parse_object fuel position).bind subparsed
    else if is_token tokens [.WHILE] position then
      (parse_while fuel position).bind subparsed
    else if is_token tokens [.TYPE] position then
      (parse_typedef fuel position).bind subparsed
    else if is_token tokens [.IF] position then
      (parse_if fuel position).bind subparsed
    else .undefined
termination_by structural fuel _ _ => fuel

/-- Embeds `Parser::parse_if`. -/
def parse_if : Nat → Nat → Result AstNode
  | 0, _ => .out_of_fuel
  | fuel + 1, position =>
    (eat tokens [.IF] position).bind fun _ position =>
    (parse_expression fuel default_ignore_binaries position).bind fun condition position =>
    (parse_block fuel position).bind fun success_block position =>
    if is_token tokens [.ELSE] position then
      (eat tokens [.ELSE] position).bind fun _ position =>
      (parse_block fuel position).bind fun fail_block position =>
      .ok (.IfNode success_block fail_block condition) position
    else .ok (.IfNode success_block (.BlockNode []) condition) position
termination_by structural fuel _ => fuel

/-- Embeds `Parser::parse_object`. -/
def parse_object : Nat → Nat → Result AstNode
  | 0, _ => .out_of_fuel
  | fuel + 1, position =>
    (eat tokens [.BEGIN] position).bind fun _ position =>
    (parse_object_loop fuel [] position).bind fun fields position =>
    (eat tokens [.END] position).bind fun _ position =>
    .ok (.ObjectNode fields) position
termination_by structural fuel _ => fuel

/-- The `while` of `parse_object`. -/
def parse_object_loop : Nat → List AstNode → Nat → Result (List AstNode)
  | 0, _, _ => .out_of_fuel
  | fuel + 1, fields, position =>
    if !is_token tokens [.END] position then
      (parse_expression fuel default_ignore_binaries position).bind fun field position =>
      parse_object_loop fuel (fields ++ [field]) (match_ tokens [.COMMA, .SEMICOLON] position).2
    else .ok fields position
termination_by structural fuel _ _ => fuel

/-- Embeds `Parser::parse_array`. -/
def parse_array : Nat → Nat → Result AstNode
  | 0, _ => .out_of_fuel
  | fuel + 1, position =>
    (eat tokens [.LSQPAREN] position).bind fun _ position =>
    (parse_array_loop fuel [] position).bind fun elements position =>
    (eat tokens [.RSQPAREN] position).bind fun _ position =>
    .ok (.ArrayNode elements) position
termination_by structural fuel _ => fuel

/-- The `while` of `parse_array`. -/
def parse_array_loop : Nat → List AstNode → Nat → Result (List AstNode)
  | 0, _, _ => .out_of_fuel
  | fuel + 1, elements, position =>
    if !is_token tokens [.RSQPAREN] position then
      (parse_expression fuel default_ignore_binaries position).bind fun element position =>
      parse_array_loop fuel (elements ++ [element]) (match_ tokens [.COMMA] position).2
    else .ok elements position
termination_by structural fuel _ _ => fuel

/-- Embeds `Parser::subparse`. -/
def subparse : Nat → AstNode → Nat → Bool → Nat → Result AstNode
  | 0, _, _, _, _ => .out_of_fuel
  | fuel + 1, expression, started_position, ignore_binaries, position =>
    if is_token tokens [.LPAREN] position then
      (parse_call fuel expression position).bind fun subparsed position =>
      subparse fuel subparsed started_position ignore_binaries position
    else if is_token tokens [.LSQPAREN] position then
      (parse_indexation fuel expression position).bind fun subparsed position =>
      subparse fuel subparsed started_position ignore_binaries position
    else if is_token tokens binary_token_types position && !ignore_binaries then
      (parse_binary fuel started_position).bind fun subparsed position =>
      subparse fuel subparsed started_position ignore_binaries position
    else .ok expression position
termination_by structural fuel _ _ _ _ => fuel

/-- Embeds `Parser::parse_while`. -/
def parse_while : Nat → Nat → Result AstNode
  | 0, _ => .out_of_fuel
  | fuel + 1, position =>
    (eat tokens [.WHILE] position).bind fun _ position =>
    (parse_expression fuel default_ignore_binaries position).bind fun condition position =>
    (parse_block fuel position).bind fun block position =>
    .ok (.WhileNode condition block) position
termination_by structural fuel _ => fuel

/-- Embeds `Parser::parse_binary`. -/
def parse_binary : Nat → Nat → Result AstNode
  | 0, _ => .out_of_fuel
  | fuel + 1, position =>
    (headterm fuel position).bind fun left position =>
    parse_binary_loop fuel left position
termination_by structural fuel _ => fuel

/-- The `while` of `parse_binary`. -/
def parse_binary_loop : Nat → AstNode → Nat → Result AstNode
  | 0, _, _ => .out_of_fuel
  | fuel + 1, left, position =>
    match match_ tokens [.AND, .OR] position with
    | (true, position) =>
      match tokens[position - 1]? with
      | none => .thrown .out_of_range position
      | some operator_token =>
        (headterm fuel position).bind fun right position =>
        parse_binary_loop fuel (.BinaryOperationNode left operator_token right) position
    | (false, position) => .ok left position
termination_by structural fuel _ _ => fuel

/-- Embeds `Parser::headterm`. -/
def headterm : Nat → Nat → Result AstNode
  | 0, _ => .out_of_fuel
  | fuel + 1, position =>
    (term fuel position).bind fun left position =>
    headterm_loop fuel left position
termination_by structural fuel _ => fuel

/-- The `while` of `headterm`. -/
def headterm_loop : Nat → AstNode → Nat → Result AstNode
  | 0, _, _ => .out_of_fuel
  | fuel + 1, left, position =>
    match match_ tokens
        [.ASSIGN, .EQ, .NOTEQ, .BIGGER, .SMALLER, .BIGGER_OR_EQ, .SMALLER_OR_EQ] position with
    | (true, position) =>
      match tokens[position - 1]? with
      | none => .thrown .out_of_range position
      | some operator_token =>
        (term fuel position).bind fun right position =>
        headterm_loop fuel (.BinaryOperationNode left operator_token right) position
    | (false, position) => .ok left position
termination_by structural fuel _ _ => fuel

/-- Embeds `Parser::term`. -/
def term : Nat → Nat → Result AstNode
  | 0, _ => .out_of_fuel
  | fuel + 1, position =>
    (subterm fuel position).bind fun left position =>
    term_loop fuel left position
termination_by structural fuel _ => fuel

/-- The `while` of `term`. -/
def term_loop : Nat → AstNode → Nat → Result AstNode
  | 0, _, _ => .out_of_fuel
  | fuel + 1, left, position =>
    match match_ tokens [.PLUS, .MINUS] position with
    | (true, position) =>
      match tokens[position - 1]? with
      | none => .thrown .out_of_range position
      | some operator_token =>
        (subterm fuel position).bind fun right position =>
        term_loop fuel (.BinaryOperationNode left operator_token right) position
    | (false, position) => .ok left position
termination_by structural fuel _ _ => fuel

/-- Embeds `Parser::subterm`. -/
def subterm : Nat → Nat → Result AstNode
  | 0, _ => .out_of_fuel
  | fuel + 1, position =>
    (parse_expression fuel true position).bind fun left position =>
    subterm_loop fuel left position
termination_by structural fuel _ => fuel

/-- The `while` of `subterm`. -/
def subterm_loop : Nat → AstNode → Nat → Result AstNode
  | 0, _, _ => .out_of_fuel
  | fuel + 1, left, position =>
    match match_ tokens [.ASTERISK, .SLASH] position with
    | (true, position) =>
      match tokens[position - 1]? with
      | none => .thrown .out_of_range position
      | some operator_token =>
        (parse_expression fuel true position).bind fun right position =>
        subterm_loop fuel (.BinaryOperationNode left operator_token right) position
    | (false, position) => .ok left position
termination_by structural fuel _ _ => fuel

/-- Embeds `Parser::parse_typedef`. -/
def parse_typedef : Nat → Nat → Result AstNode
  | 0, _ => .out_of_fuel
  | fuel + 1, position =>
    (eat tokens [.TYPE] position).bind fun _ position =>
    (parse_identifier fuel position).bind fun id position =>
    (eat tokens [.ASSIGN] position).bind fun _ position =>
    (parse_expression fuel default_ignore_binaries position).bind fun type position =>
    .ok (.TypedefNode id type) position
termination_by structural fuel _ => fuel

/-- Embeds `Parser::parse_unary`. -/
def parse_unary : Nat → Nat → Result AstNode
  | 0, _ => .out_of_fuel
  | fuel + 1, position =>
    (eat tokens unary_token_types position).bind fun token position =>
    (parse_expression fuel default_ignore_binaries position).bind fun operand position =>
    .ok (.UnaryOperationNode token operand) position
termination_by structural fuel _ => fuel

/-- Embeds `Parser::parse_call`. -/
def parse_call : Nat → AstNode → Nat → Result AstNode
  | 0, _, _ => .out_of_fuel
  | fuel + 1, to_call, position =>
    (eat tokens [.LPAREN] position).bind fun _ position =>
    (parse_call_loop fuel [] position).bind fun args position =>
    (eat tokens [.RPAREN] position).bind fun _ position =>
    .ok (.CallNode to_call args) position
termination_by structural fuel _ _ => fuel

/-- The `while` of `parse_call`. -/
def parse_call_loop : Nat → List AstNode → Nat → Result (List AstNode)
  | 0, _, _ => .out_of_fuel
  | fuel + 1, args, position =>
    if !is_token tokens [.RPAREN] position then
      (parse_expression fuel default_ignore_binaries position).bind fun argument position =>
      parse_call_loop fuel (args ++ [argument]) (match_ tokens [.COMMA] position).2
    else .ok args position
termination_by structural fuel _ _ => fuel

/-- Embeds `Parser::parse_indexation`. -/
def parse_indexation : Nat → AstNode → Nat → Result AstNode
  | 0, _, _ => .out_of_fuel
  | fuel + 1, target, position =>
    (eat tokens [.LSQPAREN] position).bind fun _ position =>
    (parse_expression fuel default_ignore_binaries position).bind fun index position =>
    (eat tokens [.RSQPAREN] position).bind fun _ position =>
    .ok (.IndexationNode target index) position
termination_by structural fuel _ _ => fuel

/-- Embeds `Parser::parse_parenthisized`. -/
def parse_parenthisized : Nat → Nat → Result AstNode
  | 0, _ => .out_of_fuel
  | fuel + 1, position =>
    (eat tokens [.LPAREN] position).bind fun _ position =>
    (parse_expression fuel default_ignore_binaries position).bind fun expression position =>
    (eat tokens [.RPAREN] position).bind fun _ position =>
    .ok (.ParenthisizedNode expression) position
termination_by structural fuel _ => fuel

/-- Embeds `Parser::parse_function`. -/
def parse_function : Nat → Nat → Result AstNode
  | 0, _ => .out_of_fuel
  | fuel + 1, position =>
    (eat tokens [.FUNCTION] position).bind fun _ position =>
    (parse_identifier fuel position).bind fun identifier position =>
    (eat tokens [.LPAREN] position).bind fun _ position =>
    (parse_function_loop fuel [] position).bind fun args position =>
    (eat tokens [.RPAREN] position).bind fun _ position =>
    (eat tokens [.ARROW] position).bind fun _ position =>
    (parse_expression fuel default_ignore_binaries position).bind fun return_type position =>
    (parse_block fuel position).bind fun block position =>
    .ok (.FunctionNode identifier args block return_type) position
termination_by structural fuel _ => fuel

/-- The `while` of `parse_function`. -/
def parse_function_loop : Nat → List AstNode → Nat → Result (List AstNode)
  | 0, _, _ => .out_of_fuel
  | fuel + 1, args, position =>
    if !is_token tokens [.RPAREN] position then
      (parse_identifier fuel position).bind fun argument position =>
      parse_function_loop fuel (args ++ [argument]) (match_ tokens [.COMMA] position).2
    else .ok args position
termination_by structural fuel _ _ => fuel

/-- Embeds `Parser::parse_block`. -/
def parse_block : Nat → Nat → Result AstNode
  | 0, _ => .out_of_fuel
  | fuel + 1, position =>
    (eat tokens [.BEGIN] position).bind fun _ position =>
    (parse_block_loop fuel [] position).bind fun nodes position =>
    (eat tokens [.END] position).bind fun _ position =>
    .ok (.BlockNode nodes) position
termination_by structural fuel _ => fuel

/-- The `while` of `parse_block`. -/
def parse_block_loop : Nat → List AstNode → Nat → Result (List AstNode)
  | 0, _, _ => .out_of_fuel
  | fuel + 1, nodes, position =>
    if !is_token tokens [.END] position then
      (parse_expression fuel default_ignore_binaries position).bind fun node position =>
      parse_block_loop fuel (nodes ++ [node]) (match_ tokens [.SEMICOLON] position).2
    else .ok nodes position
termination_by structural fuel _ _ => fuel

/-- Embeds `Parser::parse_identifier`. -/
def parse_identifier : Nat → Nat → Result AstNode
  | 0, _ => .out_of_fuel
  | fuel + 1, position =>
    (eat tokens [.IDENTIFIER] position).bind fun start position =>
    if is_token tokens [.ANNOTATE] position then
      (eat tokens [.ANNOTATE] position).bind fun _ position =>
      (parse_expression fuel default_ignore_binaries position).bind fun type position =>
      .ok (.IdentifierNode start (some type)) position
    else .ok (.IdentifierNode start none) position
termination_by structural fuel _ => fuel

end

/-- The `while` of `Parser::make_ast`. -/
def make_ast_loop : Nat → List AstNode → Nat → Result (List AstNode)
  | 0, _, _ => .out_of_fuel
  | fuel + 1, nodes, position =>
    if position < tokens.length then
      (parse_expression tokens fuel default_ignore_binaries position).bind fun expression position =>
      make_ast_loop fuel (nodes ++ [expression]) (match_ tokens [.SEMICOLON] position).2
    else .ok nodes position

/-- Embeds `Parser::make_ast`, from the cursor 0 of a new `Parser`. What `trace`
prints is not modelled. -/
def make_ast (fuel : Nat) : Result AstNode :=
  (make_ast_loop tokens fuel [] 0).bind fun nodes position =>
  .ok (.BlockNode nodes) position

end Parser

/-! ## Definitions used to state the properties -/

/-- What a run shows from outside: how it ended, the final stack and the text
printed. -/
inductive Observed where
  | completed (run_stack : List Object) (cout : String)
  | failed (what : String) (run_stack : List Object) (cout : String)
  | undefined

/-- The observable part of an outcome. -/
def Outcome.observe {α : Type} : Outcome α → Observed
  | .ok _ vm => .completed vm.run_stack vm.cout
  | .runtime_error what vm => .failed what vm.run_stack vm.cout
  | .undefined => .undefined

/-- Neither the pair `Integer`, `Integer` nor the pair `Double`, `Double`. -/
def incompatible : Object → Object → Bool
  | .Integer _, .Integer _ => false
  | .Double _, .Double _ => false
  | _, _ => true

/-- The program `PushValue(Integer a); PushValue(Integer b); op`. -/
def binary_program (a b : Int) (op : Opcode) : Bytecode :=
  [⟨.PUSHV, some (.Integer a)⟩, ⟨.PUSHV, some (.Integer b)⟩, ⟨op, none⟩]

/-- The border line written by `PRINT` for a text of `n` bytes. -/
def border (n : Nat) : String :=
  " " ++ dashes (n + 4)

/-- The number of dash characters of a text. -/
def dash_count (s : String) : Nat :=
  s.toList.count '-'

/-- The outcome with the field `running_bytecode` of its machine replaced. -/
def Outcome.with_bytecode {α : Type} (bytecode : Bytecode) : Outcome α → Outcome α
  | .ok value vm => .ok value { vm with running_bytecode := bytecode }
  | .runtime_error what vm => .runtime_error what { vm with running_bytecode := bytecode }
  | .undefined => .undefined

/-- The level of a binary operator in the ladder: 0 for `and`, `or`; 1 for
`:=`, `?=`, `!=`, `>`, `<`, `>=`, `<=`; 2 for `+`, `-`; 3 for `*`, `/`. -/
def precedence : TokenType → Option Nat
  | .AND | .OR => some 0
  | .ASSIGN | .EQ | .NOTEQ | .BIGGER | .SMALLER | .BIGGER_OR_EQ | .SMALLER_OR_EQ => some 1
  | .PLUS | .MINUS => some 2
  | .ASTERISK | .SLASH => some 3
  | _ => none

/-- The tokens `op1 o1 ... opn on` of a list of pairs of an operator and the
operand that follows it. -/
def chain_tokens : List (Token × Token) → List Token
  | [] => []
  | (op, operand) :: rest => op :: operand :: chain_tokens rest

/-- The chain leaning to the left:
`BinaryOperation(...BinaryOperation(left, op1, o1)..., opn, on)`. -/
def left_chain (left : AstNode) (rest : List (Token × Token)) : AstNode :=
  rest.foldl (fun node pair => .BinaryOperationNode node pair.1 (.LiteralNode pair.2)) left

/-- The outcome without the text printed and the bytecode recorded: how the
run ended, the value returned and the stack. -/
def Outcome.ending {α : Type} : Outcome α → Outcome α
  | .ok value vm => .ok value ⟨[], vm.run_stack, ""⟩
  | .runtime_error what vm => .runtime_error what ⟨[], vm.run_stack, ""⟩
  | .undefined => .undefined

/-- The cursor a result leaves, when it leaves one, is at most `n`. -/
def Result.bounded {α : Type} (n : Nat) : Result α → Prop
  | .ok _ position => position ≤ n
  | .thrown _ position => position ≤ n
  | .undefined => True
  | .out_of_fuel => True

/-- The second result is the first one, unless the first is out of fuel. -/
def Result.settles {α : Type} (r r2 : Result α) : Prop :=
  r = .out_of_fuel ∨ r = r2

/-- The cursor a result returns with, when it returns, is at least `b`. -/
def Result.reaches {α : Type} (b : Nat) : Result α → Prop
  | .ok _ position => b ≤ position
  | .thrown _ _ => True
  | .undefined => True
  | .out_of_fuel => True

/-- The statements `make_ast` collects from the cursor `p` on: none when the
cursor is at the end; otherwise the result of `parse_expression(false)` at `p`,
then those collected from the cursor left by `match({SEMICOLON})` after it. -/
inductive Statements (tokens : List Token) : Nat → List AstNode → Prop where
  | done (p : Nat) : tokens.length ≤ p → Statements tokens p []
  | step (p fuel : Nat) (expression : AstNode) (q : Nat) (rest : List AstNode) :
      p < tokens.length →
      parse_expression tokens fuel default_ignore_binaries p = .ok expression q →
      Statements tokens (match_ tokens [.SEMICOLON] q).2 rest →
      Statements tokens p (expression :: rest)

/-- The dispatch of `parse_expression` on the kind of the current token: the
node of the branch taken, before `subparse`. -/
def primary (tokens : List Token) (fuel : Nat) (position : Nat) : Result AstNode :=
  if is_token tokens [.FUNCTION] position then parse_function tokens fuel position
  else if is_token tokens literal_token_types position then parse_literal tokens position
  else if is_token tokens [.IDENTIFIER] position then parse_identifier tokens fuel position
  else if is_token tokens [.LPAREN] position then parse_parenthisized tokens fuel position
  else if is_token tokens unary_token_types position then parse_unary tokens fuel position
  else if is_token tokens [.LSQPAREN] position then parse_array tokens fuel position
  else if is_token tokens [.BEGIN] position then parse_object tokens fuel position
  else if is_token tokens [.WHILE] position then parse_while tokens fuel position
  else if is_token tokens [.TYPE] position then parse_typedef tokens fuel position
  else if is_token tokens [.IF] position then parse_if tokens fuel position
  else .undefined

/-! ## Properties of the virtual machine -/

theorem observe_with_bytecode {α : Type} (bytecode : Bytecode) (o : Outcome α) :
    (o.with_bytecode bytecode).observe = o.observe := by
  cases o <;> rfl

theorem exec_instruction_with_bytecode (bytecode : Bytecode) (vm : VirtualMachine)
    (instruction : Instruction) :
    exec_instruction { vm with running_bytecode := bytecode } instruction
      = (exec_instruction vm instruction).with_bytecode bytecode := by
  obtain ⟨rb, stack, out⟩ := vm
  obtain ⟨opcode, data⟩ := instruction
  cases opcode
  case ADD =>
    rcases stack with _ | ⟨obj1, _ | ⟨obj2, rest⟩⟩
    · rfl
    · rfl
    · cases obj1 <;> cases obj2 <;> rfl
  case PUSHV => cases data <;> rfl
  case PRINT => cases stack <;> rfl
  case WAIT => cases stack <;> rfl
  all_goals rfl

theorem exec_loop_with_bytecode (bytecode : Bytecode) (program : Bytecode) :
    ∀ vm : VirtualMachine,
      exec_loop { vm with running_bytecode := bytecode } program
        = (exec_loop vm program).with_bytecode bytecode := by
  induction program with
  | nil => intro vm; rfl
  | cons instruction rest ih =>
    intro vm
    simp only [exec_loop]
    rw [exec_instruction_with_bytecode]
    cases hstep : exec_instruction vm instruction with
    | ok flow vm1 =>
      cases flow
      · simpa [Outcome.with_bytecode] using ih vm1
      · rfl
    | runtime_error what vm1 => rfl
    | undefined => rfl

theorem exec_loop_return (data : Option Object) (S : Bytecode) (P : Bytecode) :
    ∀ vm : VirtualMachine,
      exec_loop vm (P ++ ⟨.RETURN, data⟩ :: S) = exec_loop vm P := by
  induction P with
  | nil => intro vm; rfl
  | cons instruction rest ih =>
    intro vm
    simp only [List.cons_append, exec_loop]
    cases hstep : exec_instruction vm instruction with
    | ok flow vm1 =>
      cases flow
      · exact ih vm1
      · rfl
    | runtime_error what vm1 => rfl
    | undefined => rfl

theorem int_add_comm (a b : Int) : int_add a b = int_add b a := by
  unfold int_add
  rw [Int.add_comm a b]

theorem int_add_of_fits (a b : Int) (hlo : -2147483648 ≤ a + b) (hhi : a + b < 2147483648) :
    int_add a b = a + b := by
  unfold int_add
  omega

theorem dash_count_border (n : Nat) : dash_count (border n) = n + 4 := by
  simp [dash_count, border, dashes, List.count_replicate]

/-- Run on an empty stack, `PushValue(Integer a); PushValue(Integer b); Add`
completes and leaves exactly one value, the `Integer` of the `int` sum of `a`
and `b`, which wraps around at 32 bits. -/
theorem add_wraps (rb : Bytecode) (out : String) (a b : Int) :
    runf_bytecode ⟨rb, [], out⟩ (binary_program a b .ADD) false
      = .ok () ⟨binary_program a b .ADD, [.Integer (int_add a b)], out⟩ := by
  rw [int_add_comm]
  rfl

/-- C3, as stated, fails: with `a = 2147483647` and `b = 1` the run leaves
`Integer (-2147483648)` on the stack, not `Integer (a + b)`, which is
`Integer 2147483648`. -/
theorem add_overflows :
    runf_bytecode ⟨[], [], ""⟩ (binary_program 2147483647 1 .ADD) false
        = .ok () ⟨binary_program 2147483647 1 .ADD, [.Integer (-2147483648)], ""⟩
      ∧ runf_bytecode ⟨[], [], ""⟩ (binary_program 2147483647 1 .ADD) false
        ≠ .ok () ⟨binary_program 2147483647 1 .ADD, [.Integer (2147483647 + 1)], ""⟩ := by
  have h := add_wraps [] "" 2147483647 1
  have hsum : int_add 2147483647 1 = -2147483648 := by decide
  rw [hsum] at h
  refine ⟨h, ?_⟩
  rw [h]
  intro hne
  simp only [Outcome.ok.injEq, VirtualMachine.mk.injEq, List.cons.injEq,
    Object.Integer.injEq, true_and, and_true] at hne
  revert hne
  decide

/-- C3, amended. For all integers `a` and `b` whose sum fits in a 32 bit
`int`, `PushValue(Integer a); PushValue(Integer b); Add` run on an empty
stack completes and leaves exactly the one value `Integer (a + b)`. -/
theorem add_integers (rb : Bytecode) (out : String) (a b : Int)
    (hlo : -2147483648 ≤ a + b) (hhi : a + b < 2147483648) :
    runf_bytecode ⟨rb, [], out⟩ (binary_program a b .ADD) false
      = .ok () ⟨binary_program a b .ADD, [.Integer (a + b)], out⟩ := by
  rw [add_wraps, int_add_of_fits a b hlo hhi]

theorem add_integers_witness :
    (-2147483648 ≤ (2 : Int) + 3 ∧ (2 : Int) + 3 < 2147483648)
      ∧ runf_bytecode ⟨[], [], ""⟩ (binary_program 2 3 .ADD) false
          = .ok () ⟨binary_program 2 3 .ADD, [.Integer 5], ""⟩ :=
  ⟨by decide, add_integers [] "" 2 3 (by decide) (by decide)⟩

/-- The opcodes `SUB`, `MUL` and `DIV` change nothing: both operands stay on
the stack. -/
theorem sub_mul_div_skip (rb : Bytecode) (out : String) (a b : Int) :
    runf_bytecode ⟨rb, [], out⟩ (binary_program a b .SUB) false
        = .ok () ⟨binary_program a b .SUB, [.Integer b, .Integer a], out⟩
      ∧ runf_bytecode ⟨rb, [], out⟩ (binary_program a b .MUL) false
        = .ok () ⟨binary_program a b .MUL, [.Integer b, .Integer a], out⟩
      ∧ runf_bytecode ⟨rb, [], out⟩ (binary_program a b .DIV) false
        = .ok () ⟨binary_program a b .DIV, [.Integer b, .Integer a], out⟩ :=
  ⟨rfl, rfl, rfl⟩

/-- C4. `PushValue(Integer 5); PushValue(Integer 3); Sub` on an empty stack
completes with both operands still on the stack, 3 on top of 5: no difference
is computed, and the stack does not hold exactly one value. -/
theorem sub_leaves_operands :
    runf_bytecode ⟨[], [], ""⟩ (binary_program 5 3 .SUB) false
        = .ok () ⟨binary_program 5 3 .SUB, [.Integer 3, .Integer 5], ""⟩
      ∧ ∀ v : Object, (runf_bytecode ⟨[], [], ""⟩ (binary_program 5 3 .SUB) false).observe
          ≠ .completed [v] "" := by
  refine ⟨rfl, ?_⟩
  intro v h
  have h2 : Observed.completed [Object.Integer 3, Object.Integer 5] ""
      = Observed.completed [v] "" := h
  simp at h2

/-- C5, as stated, fails: `Add` on a stack holding `Integer 1` above
`String "x"` throws nothing; it returns normally with both values popped. -/
theorem add_incompatible_no_error :
    exec_instruction ⟨[], [.Integer 1, .String "x"], ""⟩ ⟨.ADD, none⟩ = .ok .next ⟨[], [], ""⟩
      ∧ ¬ ∃ what vm, exec_instruction ⟨[], [.Integer 1, .String "x"], ""⟩ ⟨.ADD, none⟩
          = .runtime_error what vm := by
  refine ⟨rfl, ?_⟩
  rintro ⟨what, vm, h⟩
  have h2 : (Outcome.ok Flow.next ⟨[], [], ""⟩ : Outcome Flow) = .runtime_error what vm := h
  simp at h2

/-- C5, amended. When the two values on top of the stack are neither both
`Integer` nor both `Double`, `Add` throws nothing: it pops both, pushes
nothing, prints nothing and the loop goes on to the next instruction. -/
theorem add_incompatible_pops_both (rb : Bytecode) (out : String) (obj1 obj2 : Object)
    (rest : List Object) (data : Option Object) (h : incompatible obj1 obj2 = true) :
    exec_instruction ⟨rb, obj1 :: obj2 :: rest, out⟩ ⟨.ADD, data⟩ = .ok .next ⟨rb, rest, out⟩ := by
  cases obj1 <;> cases obj2 <;> first | rfl | simp [incompatible] at h

theorem add_incompatible_pops_both_witness :
    incompatible (.Integer 1) .Null = true
      ∧ exec_instruction ⟨[], [.Integer 1, .Null, .String "kept"], ""⟩ ⟨.ADD, none⟩
          = .ok .next ⟨[], [.String "kept"], ""⟩ :=
  ⟨rfl, add_incompatible_pops_both [] "" (.Integer 1) .Null [.String "kept"] none rfl⟩

/-- On an empty stack a first instruction `Wait`, `Print` or `Add` reaches
`run_stack.top()` of an empty `std::stack`: undefined behaviour, whatever
follows it and whatever the trace flag. -/
theorem pop_first_on_empty_stack (rb : Bytecode) (out : String) (data : Option Object)
    (rest : Bytecode) :
    runf_bytecode ⟨rb, [], out⟩ (⟨.WAIT, data⟩ :: rest) false = .undefined
      ∧ runf_bytecode ⟨rb, [], out⟩ (⟨.PRINT, data⟩ :: rest) false = .undefined
      ∧ runf_bytecode ⟨rb, [], out⟩ (⟨.ADD, data⟩ :: rest) false = .undefined :=
  ⟨rfl, rfl, rfl⟩

/-- C6. `Wait; Return` on an empty stack: the run does not end in the
`RuntimeError` "Stack is empty"; `pop_stack` calls `top()` on the empty stack
before it tests anything, which is undefined behaviour. -/
theorem wait_on_empty_stack :
    runf_bytecode ⟨[], [], ""⟩ [⟨.WAIT, none⟩, ⟨.RETURN, none⟩] false = .undefined
      ∧ ¬ ∃ what vm, runf_bytecode ⟨[], [], ""⟩ [⟨.WAIT, none⟩, ⟨.RETURN, none⟩] false
          = .runtime_error what vm := by
  refine ⟨rfl, ?_⟩
  rintro ⟨what, vm, h⟩
  have h2 : (Outcome.undefined : Outcome Unit) = .runtime_error what vm := h
  simp at h2

theorem exec_instruction_ending (vm vm2 : VirtualMachine) (instruction : Instruction)
    (h : vm.run_stack = vm2.run_stack) :
    (exec_instruction vm instruction).ending = (exec_instruction vm2 instruction).ending := by
  obtain ⟨rb, stack, out⟩ := vm
  obtain ⟨rb2, stack2, out2⟩ := vm2
  obtain ⟨opcode, data⟩ := instruction
  simp only at h
  subst h
  cases opcode
  case ADD =>
    rcases stack with _ | ⟨obj1, _ | ⟨obj2, rest⟩⟩
    · rfl
    · rfl
    · cases obj1 <;> cases obj2 <;> rfl
  case PUSHV => cases data <;> rfl
  case PRINT => cases stack <;> rfl
  case WAIT => cases stack <;> rfl
  all_goals rfl

theorem exec_loop_ending (program : Bytecode) :
    ∀ vm vm2 : VirtualMachine, vm.run_stack = vm2.run_stack →
      (exec_loop vm program).ending = (exec_loop vm2 program).ending := by
  induction program with
  | nil => intro vm vm2 h; simp [exec_loop, Outcome.ending, h]
  | cons instruction rest ih =>
    intro vm vm2 h
    have hstep := exec_instruction_ending vm vm2 instruction h
    simp only [exec_loop]
    cases h1 : exec_instruction vm instruction with
    | ok flow vm1 =>
      cases h2 : exec_instruction vm2 instruction with
      | ok flow2 vm3 =>
        rw [h1, h2] at hstep
        simp only [Outcome.ending, Outcome.ok.injEq, VirtualMachine.mk.injEq, true_and,
          and_true] at hstep
        obtain ⟨hflow, hstack⟩ := hstep
        subst hflow
        cases flow
        · exact ih vm1 vm3 hstack
        · simp [Outcome.ending, hstack]
      | runtime_error what vm3 => rw [h1, h2] at hstep; simp [Outcome.ending] at hstep
      | undefined => rw [h1, h2] at hstep; simp [Outcome.ending] at hstep
    | runtime_error what vm1 =>
      cases h2 : exec_instruction vm2 instruction with
      | ok flow2 vm3 => rw [h1, h2] at hstep; simp [Outcome.ending] at hstep
      | runtime_error what2 vm3 =>
        rw [h1, h2] at hstep
        simp only [Outcome.ending, Outcome.runtime_error.injEq] at hstep ⊢
        exact hstep
      | undefined => rw [h1, h2] at hstep; simp [Outcome.ending] at hstep
    | undefined =>
      cases h2 : exec_instruction vm2 instruction with
      | ok flow2 vm3 => rw [h1, h2] at hstep; simp [Outcome.ending] at hstep
      | runtime_error what2 vm3 => rw [h1, h2] at hstep; simp [Outcome.ending] at hstep
      | undefined => rfl

theorem trace_loop_run_stack (program : Bytecode) :
    ∀ vm : VirtualMachine, (trace_loop vm program).run_stack = vm.run_stack := by
  induction program with
  | nil => intro vm; rfl
  | cons instruction rest ih => intro vm; simp only [trace_loop]; rw [ih]

/-- C7. Running `P ++ [Return] ++ S` and running `P` end the same way
(normally, with the same `RuntimeError`, or undefined) and with the same final
stack, whatever the machine started from and whether tracing is on or off;
with tracing off the text printed is the same too. No instruction of `S` is
executed. -/
theorem return_halts (vm : VirtualMachine) (P S : Bytecode) (data : Option Object) :
    (runf_bytecode vm (P ++ [⟨.RETURN, data⟩] ++ S) false).observe
        = (runf_bytecode vm P false).observe
      ∧ ∀ trace : Bool, (runf_bytecode vm (P ++ [⟨.RETURN, data⟩] ++ S) trace).ending
        = (runf_bytecode vm P trace).ending := by
  constructor
  · have h1 := exec_loop_with_bytecode (P ++ [⟨.RETURN, data⟩] ++ S)
      (P ++ [⟨.RETURN, data⟩] ++ S) vm
    have h2 := exec_loop_with_bytecode P P vm
    simp only [runf_bytecode, Bool.false_eq_true, if_false]
    rw [h1, h2, observe_with_bytecode, observe_with_bytecode]
    simp only [List.append_assoc, List.singleton_append]
    rw [exec_loop_return]
  · intro trace
    simp only [runf_bytecode, List.append_assoc, List.singleton_append]
    rw [exec_loop_return]
    apply exec_loop_ending
    cases trace <;> simp [trace_loop_run_stack]

/-- C8. On a stack `v :: rest`, `Print` removes `v` and nothing else, and
appends to the output three lines, each ended by `endl`: the border, a space
and `length(t) + 4` dashes; ` | t | `; the border again. Here `t` is the
display form of `v` and `length(t)` its length in bytes. -/
theorem print_box (rb : Bytecode) (out : String) (v : Object) (rest : List Object)
    (data : Option Object) :
    exec_instruction ⟨rb, v :: rest, out⟩ ⟨.PRINT, data⟩
        = .ok .next ⟨rb, rest,
            out ++ (border v.tostring.utf8ByteSize ++ "\n"
              ++ (" | " ++ v.tostring ++ " | ") ++ "\n"
              ++ border v.tostring.utf8ByteSize ++ "\n")⟩
      ∧ dash_count (border v.tostring.utf8ByteSize) = v.tostring.utf8ByteSize + 4 := by
  refine ⟨?_, dash_count_border _⟩
  simp only [exec_instruction, pop_stack, border, String.append_assoc]

/-- C9, as stated, fails: the output of `PushValue(String "hi"); Print` is not
a border with 8 dashes, or of 8 characters, around ` | hi | `. -/
theorem hi_border_is_not_8 :
    ¬ ∃ (line : String) (vm : VirtualMachine), (dash_count line = 8 ∨ line.length = 8)
        ∧ runf_bytecode ⟨[], [], ""⟩ [⟨.PUSHV, some (.String "hi")⟩, ⟨.PRINT, none⟩] false
            = .ok () vm
        ∧ vm.cout = line ++ "\n" ++ " | hi | " ++ "\n" ++ line ++ "\n" := by
  rintro ⟨line, vm, hline, hrun, hout⟩
  have hrun2 : (Outcome.ok () ⟨[⟨.PUSHV, some (.String "hi")⟩, ⟨.PRINT, none⟩], [],
      " ------\n | hi | \n ------\n"⟩ : Outcome Unit) = .ok () vm := hrun
  injection hrun2 with _ hvm
  subst hvm
  have hcount := congrArg dash_count hout
  have hlen := congrArg String.length hout
  simp [dash_count, List.count_append] at hcount
  simp at hlen
  rcases hline with h | h
  · simp [dash_count] at h
    rw [h] at hcount
    revert hcount
    decide
  · rw [h] at hlen
    revert hlen
    decide

/-- C9, amended. `PushValue(String "hi"); Print` on an empty stack prints
exactly three lines: a border of one space and 6 dashes, the line ` | hi | `,
and the same border again; the stack is empty afterwards. -/
theorem print_hi_box :
    runf_bytecode ⟨[], [], ""⟩ [⟨.PUSHV, some (.String "hi")⟩, ⟨.PRINT, none⟩] false
        = .ok () ⟨[⟨.PUSHV, some (.String "hi")⟩, ⟨.PRINT, none⟩], [],
            " ------\n | hi | \n ------\n"⟩
      ∧ " ------\n | hi | \n ------\n"
          = border 2 ++ "\n" ++ " | hi | " ++ "\n" ++ border 2 ++ "\n"
      ∧ border 2 = " ------" ∧ dash_count (border 2) = 6 := by
  refine ⟨rfl, ?_, ?_, ?_⟩ <;> decide

/-- C17. `PushValue(v)` with a value present, `Null` included, returns normally
with `v` on top of the stack it found; with no operand it throws the
`RuntimeError` of `push_stack` and the stack is as it was. Nothing is printed
in either case. -/
theorem push_value (rb : Bytecode) (out : String) (s : List Object) (v : Object) :
    exec_instruction ⟨rb, s, out⟩ ⟨.PUSHV, some v⟩ = .ok .next ⟨rb, v :: s, out⟩
      ∧ exec_instruction ⟨rb, s, out⟩ ⟨.PUSHV, some .Null⟩ = .ok .next ⟨rb, .Null :: s, out⟩
      ∧ exec_instruction ⟨rb, s, out⟩ ⟨.PUSHV, none⟩
        = .runtime_error "Runtime error: Cannot push null pointer to stack" ⟨rb, s, out⟩ := by
  refine ⟨rfl, rfl, ?_⟩
  simp [exec_instruction, push_stack, errorf]

/-! ## Properties of the parser -/

theorem is_token_some {tokens : List Token} {p : Nat} {t : Token} (types : List TokenType)
    (h : tokens[p]? = some t) : is_token tokens types p = decide (t.type ∈ types) := by
  simp [is_token, h]

theorem is_token_none {tokens : List Token} {p : Nat} (types : List TokenType)
    (h : tokens[p]? = none) : is_token tokens types p = false := by
  simp [is_token, h]

theorem eat_mem {tokens : List Token} {p : Nat} {t : Token} {types : List TokenType}
    (h : tokens[p]? = some t) (hmem : t.type ∈ types) :
    eat tokens types p = .ok t (p + 1) := by
  simp [eat, is_token, h, hmem]

theorem eat_not_mem {tokens : List Token} {p : Nat} {t : Token} {types : List TokenType}
    (h : tokens[p]? = some t) (hmem : t.type ∉ types) :
    eat tokens types p = .thrown (.runtime_error
      ("Syntax error: " ++ ("Expected token: " ++ expected_tokens types ++ ", given: "
        ++ token_types_names t.type) ++ ", at position: " ++ toString p)) p := by
  simp [eat, is_token, h, hmem, parser_errorf]

theorem eat_out_of_range {tokens : List Token} {p : Nat} (types : List TokenType)
    (h : tokens.length ≤ p) : eat tokens types p = .thrown .out_of_range p := by
  simp [eat, List.getElem?_eq_none h]

/-- A literal token followed by neither `(` nor `[` is parsed, binary operators
ignored, as the literal alone. -/
theorem parse_expression_literal {tokens : List Token} {p : Nat} {t : Token} (fuel : Nat)
    (h : tokens[p]? = some t) (hlit : t.type ∈ literal_token_types)
    (hcall : is_token tokens [.LPAREN] (p + 1) = false)
    (hindex : is_token tokens [.LSQPAREN] (p + 1) = false) :
    parse_expression tokens (fuel + 2) true p = .ok (.LiteralNode t) (p + 1) := by
  have hfn : is_token tokens [.FUNCTION] p = false := by
    rw [is_token_some _ h]
    simp only [literal_token_types, List.mem_cons, List.mem_singleton, List.not_mem_nil,
      or_false] at hlit
    rcases hlit with e | e | e | e | e <;> simp [e]
  have hl : is_token tokens literal_token_types p = true := by
    rw [is_token_some _ h]; simpa using hlit
  simp [parse_expression, subparse, parse_literal, eat_mem h hlit, Result.bind, hfn, hl, hcall,
    hindex]

/-- A literal token followed by a binary operator: with binary operators not
ignored, `subparse` rewinds to the literal and hands over to `parse_binary`. -/
theorem parse_expression_rewind {tokens : List Token} {p : Nat} {t op : Token} (fuel : Nat)
    (h : tokens[p]? = some t) (hlit : t.type ∈ literal_token_types)
    (hop : tokens[p + 1]? = some op) (hbin : op.type ∈ binary_token_types) :
    parse_expression tokens (fuel + 2) false p
      = (parse_binary tokens fuel p).bind fun subparsed position =>
          subparse tokens fuel subparsed p false position := by
  have hfn : is_token tokens [.FUNCTION] p = false := by
    rw [is_token_some _ h]
    simp only [literal_token_types, List.mem_cons, List.mem_singleton, List.not_mem_nil,
      or_false] at hlit
    rcases hlit with e | e | e | e | e <;> simp [e]
  have hl : is_token tokens literal_token_types p = true := by
    rw [is_token_some _ h]; simpa using hlit
  have hcall : is_token tokens [.LPAREN] (p + 1) = false := by
    rw [is_token_some _ hop]
    simp only [binary_token_types, List.mem_cons, List.mem_singleton, List.not_mem_nil,
      or_false] at hbin
    rcases hbin with e | e | e | e | e | e | e | e | e | e | e | e | e <;> simp [e]
  have hindex : is_token tokens [.LSQPAREN] (p + 1) = false := by
    rw [is_token_some _ hop]
    simp only [binary_token_types, List.mem_cons, List.mem_singleton, List.not_mem_nil,
      or_false] at hbin
    rcases hbin with e | e | e | e | e | e | e | e | e | e | e | e | e <;> simp [e]
  have hb : is_token tokens binary_token_types (p + 1) = true := by
    rw [is_token_some _ hop]; simpa using hbin
  simp [parse_expression, subparse, parse_literal, eat_mem h hlit, Result.bind, hfn, hl, hcall,
    hindex, hb]

/-- At the end of the tokens `subparse` returns its node. -/
theorem subparse_at_end {tokens : List Token} {p : Nat} (fuel : Nat) (expression : AstNode)
    (started_position : Nat) (ignore_binaries : Bool) (h : tokens[p]? = none) :
    subparse tokens (fuel + 1) expression started_position ignore_binaries p
      = .ok expression p := by
  simp [subparse, is_token_none _ h]

theorem subterm_loop_stop {tokens : List Token} {p : Nat} (fuel : Nat) (left : AstNode)
    (h : is_token tokens [.ASTERISK, .SLASH] p = false) :
    subterm_loop tokens (fuel + 1) left p = .ok left p := by
  simp [subterm_loop, match_, h]

theorem subterm_loop_step {tokens : List Token} {p : Nat} {op : Token} (fuel : Nat)
    (left : AstNode) (h : tokens[p]? = some op) (ht : is_token tokens [.ASTERISK, .SLASH] p = true) :
    subterm_loop tokens (fuel + 1) left p
      = (parse_expression tokens fuel true (p + 1)).bind fun right position =>
          subterm_loop tokens fuel (.BinaryOperationNode left op right) position := by
  simp [subterm_loop, match_, ht, h]

theorem term_loop_stop {tokens : List Token} {p : Nat} (fuel : Nat) (left : AstNode)
    (h : is_token tokens [.PLUS, .MINUS] p = false) :
    term_loop tokens (fuel + 1) left p = .ok left p := by
  simp [term_loop, match_, h]

theorem term_loop_step {tokens : List Token} {p : Nat} {op : Token} (fuel : Nat)
    (left : AstNode) (h : tokens[p]? = some op) (ht : is_token tokens [.PLUS, .MINUS] p = true) :
    term_loop tokens (fuel + 1) left p
      = (subterm tokens fuel (p + 1)).bind fun right position =>
          term_loop tokens fuel (.BinaryOperationNode left op right) position := by
  simp [term_loop, match_, ht, h]

theorem headterm_loop_stop {tokens : List Token} {p : Nat} (fuel : Nat) (left : AstNode)
    (h : is_token tokens
      [.ASSIGN, .EQ, .NOTEQ, .BIGGER, .SMALLER, .BIGGER_OR_EQ, .SMALLER_OR_EQ] p = false) :
    headterm_loop tokens (fuel + 1) left p = .ok left p := by
  simp [headterm_loop, match_, h]

theorem headterm_loop_step {tokens : List Token} {p : Nat} {op : Token} (fuel : Nat)
    (left : AstNode) (h : tokens[p]? = some op)
    (ht : is_token tokens
      [.ASSIGN, .EQ, .NOTEQ, .BIGGER, .SMALLER, .BIGGER_OR_EQ, .SMALLER_OR_EQ] p = true) :
    headterm_loop tokens (fuel + 1) left p
      = (term tokens fuel (p + 1)).bind fun right position =>
          headterm_loop tokens fuel (.BinaryOperationNode left op right) position := by
  simp [headterm_loop, match_, ht, h]

theorem parse_binary_loop_stop {tokens : List Token} {p : Nat} (fuel : Nat) (left : AstNode)
    (h : is_token tokens [.AND, .OR] p = false) :
    parse_binary_loop tokens (fuel + 1) left p = .ok left p := by
  simp [parse_binary_loop, match_, h]

theorem parse_binary_loop_step {tokens : List Token} {p : Nat} {op : Token} (fuel : Nat)
    (left : AstNode) (h : tokens[p]? = some op) (ht : is_token tokens [.AND, .OR] p = true) :
    parse_binary_loop tokens (fuel + 1) left p
      = (headterm tokens fuel (p + 1)).bind fun right position =>
          parse_binary_loop tokens fuel (.BinaryOperationNode left op right) position := by
  simp [parse_binary_loop, match_, ht, h]
/-- What `is_token` answers at an operator of level `i` of the ladder. -/
theorem is_token_operator (tokens : List Token) (p : Nat) {t : Token} {i : Nat}
    (h : tokens[p]? = some t) (hp : precedence t.type = some i) :
    is_token tokens [.AND, .OR] p = decide (i = 0)
      ∧ is_token tokens
          [.ASSIGN, .EQ, .NOTEQ, .BIGGER, .SMALLER, .BIGGER_OR_EQ, .SMALLER_OR_EQ] p
          = decide (i = 1)
      ∧ is_token tokens [.PLUS, .MINUS] p = decide (i = 2)
      ∧ is_token tokens [.ASTERISK, .SLASH] p = decide (i = 3)
      ∧ is_token tokens binary_token_types p = true
      ∧ is_token tokens [.LPAREN] p = false
      ∧ is_token tokens [.LSQPAREN] p = false
      ∧ i < 4 := by
  simp only [is_token_some _ h]
  revert hp
  cases t.type <;> simp [precedence, binary_token_types] <;> intro e <;> subst e <;> simp

/-- What `is_token` answers at a literal. -/
theorem is_token_literal (tokens : List Token) (p : Nat) {t : Token}
    (h : tokens[p]? = some t) (hlit : t.type ∈ literal_token_types) :
    is_token tokens [.FUNCTION] p = false
      ∧ is_token tokens literal_token_types p = true := by
  simp only [is_token_some _ h]
  revert hlit
  cases t.type <;> simp [literal_token_types]

/-- C1. For literals `a`, `b`, `c` and binary operators `lo`, `hi` with `hi` on
a strictly tighter level of the ladder than `lo`, `parse_expression(false)`
turns `a lo b hi c` into `BinaryOperation(a, lo, BinaryOperation(b, hi, c))`
and `a hi b lo c` into `BinaryOperation(BinaryOperation(a, hi, b), lo, c)`,
with the cursor after the fifth token, given fuel for 12 nested calls. -/
theorem precedence_grouping (a lo b hi c : Token) (i j : Nat)
    (ha : a.type ∈ literal_token_types) (hb : b.type ∈ literal_token_types)
    (hc : c.type ∈ literal_token_types)
    (hlo : precedence lo.type = some i) (hhi : precedence hi.type = some j) (hij : i < j)
    (fuel : Nat) (hfuel : 12 ≤ fuel) :
    parse_expression [a, lo, b, hi, c] fuel false 0
        = .ok (.BinaryOperationNode (.LiteralNode a) lo
            (.BinaryOperationNode (.LiteralNode b) hi (.LiteralNode c))) 5
      ∧ parse_expression [a, hi, b, lo, c] fuel false 0
        = .ok (.BinaryOperationNode
            (.BinaryOperationNode (.LiteralNode a) hi (.LiteralNode b)) lo (.LiteralNode c)) 5 := by
  obtain ⟨k, rfl⟩ := Nat.exists_eq_add_of_le' hfuel
  constructor
  · obtain ⟨a1, a2⟩ := is_token_literal [a, lo, b, hi, c] 0 rfl ha
    obtain ⟨b1, b2⟩ := is_token_literal [a, lo, b, hi, c] 2 rfl hb
    obtain ⟨c1, c2⟩ := is_token_literal [a, lo, b, hi, c] 4 rfl hc
    obtain ⟨l0, l1, l2, l3, l4, l5, l6, li⟩ :=
      is_token_operator [a, lo, b, hi, c] 1 rfl hlo
    obtain ⟨h0, h1, h2, h3, h4, h5, h6, hj⟩ :=
      is_token_operator [a, lo, b, hi, c] 3 rfl hhi
    have e := fun types => @is_token_none [a, lo, b, hi, c] 5 types rfl
    interval_cases j <;> interval_cases i <;>
      simp [parse_expression, subparse, parse_binary, parse_binary_loop, headterm,
        headterm_loop, term, term_loop, subterm, subterm_loop, match_, eat, parse_literal,
        Result.bind, a1, a2, b1, b2, c1, c2, l0, l1, l2, l3, l4, l5, l6, h0, h1, h2, h3, h4,
        h5, h6, e] at hij ⊢
  · obtain ⟨a1, a2⟩ := is_token_literal [a, hi, b, lo, c] 0 rfl ha
    obtain ⟨b1, b2⟩ := is_token_literal [a, hi, b, lo, c] 2 rfl hb
    obtain ⟨c1, c2⟩ := is_token_literal [a, hi, b, lo, c] 4 rfl hc
    obtain ⟨l0, l1, l2, l3, l4, l5, l6, li⟩ :=
      is_token_operator [a, hi, b, lo, c] 3 rfl hlo
    obtain ⟨h0, h1, h2, h3, h4, h5, h6, hj⟩ :=
      is_token_operator [a, hi, b, lo, c] 1 rfl hhi
    have e := fun types => @is_token_none [a, hi, b, lo, c] 5 types rfl
    interval_cases j <;> interval_cases i <;>
      simp [parse_expression, subparse, parse_binary, parse_binary_loop, headterm,
        headterm_loop, term, term_loop, subterm, subterm_loop, match_, eat, parse_literal,
        Result.bind, a1, a2, b1, b2, c1, c2, l0, l1, l2, l3, l4, l5, l6, h0, h1, h2, h3, h4,
        h5, h6, e] at hij ⊢

theorem precedence_grouping_witness :
    ((⟨.DIGIT, "1", 0⟩ : Token).type ∈ literal_token_types
        ∧ (⟨.DIGIT, "2", 4⟩ : Token).type ∈ literal_token_types
        ∧ (⟨.DIGIT, "3", 8⟩ : Token).type ∈ literal_token_types
        ∧ precedence (⟨.PLUS, "+", 2⟩ : Token).type = some 2
        ∧ precedence (⟨.ASTERISK, "*", 6⟩ : Token).type = some 3
        ∧ 2 < 3 ∧ 12 ≤ 12)
      ∧ parse_expression
          [⟨.DIGIT, "1", 0⟩, ⟨.PLUS, "+", 2⟩, ⟨.DIGIT, "2", 4⟩, ⟨.ASTERISK, "*", 6⟩,
            ⟨.DIGIT, "3", 8⟩] 12 false 0
        = .ok (.BinaryOperationNode (.LiteralNode ⟨.DIGIT, "1", 0⟩) ⟨.PLUS, "+", 2⟩
            (.BinaryOperationNode (.LiteralNode ⟨.DIGIT, "2", 4⟩) ⟨.ASTERISK, "*", 6⟩
              (.LiteralNode ⟨.DIGIT, "3", 8⟩))) 5 :=
  ⟨by decide,
    (precedence_grouping ⟨.DIGIT, "1", 0⟩ ⟨.PLUS, "+", 2⟩ ⟨.DIGIT, "2", 4⟩ ⟨.ASTERISK, "*", 6⟩
      ⟨.DIGIT, "3", 8⟩ 2 3 (by decide) (by decide) (by decide) rfl rfl (by decide) 12
      (le_refl 12)).1⟩
theorem chain_tokens_length (rest : List (Token × Token)) :
    (chain_tokens rest).length = 2 * rest.length := by
  induction rest with
  | nil => rfl
  | cons x rest ih => obtain ⟨op, operand⟩ := x; simp [chain_tokens, ih]; omega

theorem chain_tokens_end (pre : List Token) (rest : List (Token × Token)) :
    (pre ++ chain_tokens rest)[pre.length + 2 * rest.length]? = none := by
  apply List.getElem?_eq_none
  simp [chain_tokens_length]

theorem chain_tokens_operator (pre : List Token) (op operand : Token)
    (rest : List (Token × Token)) :
    (pre ++ chain_tokens ((op, operand) :: rest))[pre.length]? = some op := by
  rw [List.getElem?_append_right (le_refl _)]
  simp [chain_tokens]

theorem chain_tokens_operand (pre : List Token) (op operand : Token)
    (rest : List (Token × Token)) :
    (pre ++ chain_tokens ((op, operand) :: rest))[pre.length + 1]? = some operand := by
  rw [List.getElem?_append_right (Nat.le_add_right _ _)]
  simp [chain_tokens]

theorem chain_tokens_shift (pre : List Token) (op operand : Token)
    (rest : List (Token × Token)) :
    pre ++ chain_tokens ((op, operand) :: rest) = (pre ++ [op, operand]) ++ chain_tokens rest := by
  simp [chain_tokens]

/-- What `is_token` answers where a chain of operators of level `i` starts or
has ended. -/
theorem is_token_chain (pre : List Token) (rest : List (Token × Token)) (i : Nat)
    (hops : ∀ x ∈ rest, precedence x.1.type = some i) :
    is_token (pre ++ chain_tokens rest) [.LPAREN] pre.length = false
      ∧ is_token (pre ++ chain_tokens rest) [.LSQPAREN] pre.length = false
      ∧ (i ≠ 3 → is_token (pre ++ chain_tokens rest) [.ASTERISK, .SLASH] pre.length = false)
      ∧ (i ≠ 2 → is_token (pre ++ chain_tokens rest) [.PLUS, .MINUS] pre.length = false) := by
  rcases rest with _ | ⟨⟨op, operand⟩, rest⟩
  · have h : (pre ++ chain_tokens [])[pre.length]? = none := by simp [chain_tokens]
    simp [is_token_none _ h]
  · obtain ⟨-, -, l2, l3, -, l5, l6, -⟩ :=
      is_token_operator _ _ (chain_tokens_operator pre op operand rest)
        (hops (op, operand) (List.mem_cons_self _ _))
    simp [l2, l3, l5, l6]

/-- A literal followed by neither `(`, `[`, `*` nor `/` is a whole `subterm`. -/
theorem subterm_literal {tokens : List Token} {p : Nat} {t : Token} (fuel : Nat)
    (h : tokens[p]? = some t) (hlit : t.type ∈ literal_token_types)
    (hcall : is_token tokens [.LPAREN] (p + 1) = false)
    (hindex : is_token tokens [.LSQPAREN] (p + 1) = false)
    (hmul : is_token tokens [.ASTERISK, .SLASH] (p + 1) = false) :
    subterm tokens (fuel + 3) p = .ok (.LiteralNode t) (p + 1) := by
  rw [subterm, parse_expression_literal fuel h hlit hcall hindex]
  simp only [Result.bind]
  exact subterm_loop_stop _ _ hmul

/-- The loop of `subterm` folds a chain of `*` and `/` to the left. -/
theorem subterm_loop_chain (rest : List (Token × Token)) :
    ∀ (pre : List Token) (left : AstNode) (k : Nat),
      (∀ x ∈ rest, precedence x.1.type = some 3 ∧ x.2.type ∈ literal_token_types) →
      subterm_loop (pre ++ chain_tokens rest) (k + rest.length + 3) left pre.length
        = .ok (left_chain left rest) (pre.length + 2 * rest.length) := by
  induction rest with
  | nil =>
    intro pre left k _
    have h : (pre ++ chain_tokens [])[pre.length]? = none := by simp [chain_tokens]
    exact subterm_loop_stop _ _ (is_token_none _ h)
  | cons x rest ih =>
    obtain ⟨op, operand⟩ := x
    intro pre left k hall
    obtain ⟨hop, hlit⟩ := hall (op, operand) (List.mem_cons_self _ _)
    have hrest : ∀ x ∈ rest, precedence x.1.type = some 3 ∧ x.2.type ∈ literal_token_types :=
      fun x hx => hall x (List.mem_cons_of_mem _ hx)
    obtain ⟨-, -, -, l3, -, -, -, -⟩ :=
      is_token_operator _ _ (chain_tokens_operator pre op operand rest) hop
    have hfuel : k + ((op, operand) :: rest).length + 3 = (k + rest.length + 1 + 2) + 1 := by
      simp only [List.length_cons]; omega
    have hnext := is_token_chain (pre ++ [op, operand]) rest 3 (fun x hx => (hrest x hx).1)
    have hlen : (pre ++ [op, operand]).length = pre.length + 1 + 1 := by simp
    rw [← chain_tokens_shift, hlen] at hnext
    rw [hfuel, subterm_loop_step _ _ (chain_tokens_operator pre op operand rest)
      (by simpa using l3),
      parse_expression_literal _ (chain_tokens_operand pre op operand rest) hlit hnext.1
        hnext.2.1]
    simp only [Result.bind]
    have := ih (pre ++ [op, operand]) (.BinaryOperationNode left op (.LiteralNode operand)) k
      hrest
    rw [← chain_tokens_shift, hlen] at this
    rw [this]
    simp only [left_chain, List.foldl_cons, List.length_cons]
    congr 1
    omega
/-- The loop of `term` folds a chain of `+` and `-` to the left. -/
theorem term_loop_chain (rest : List (Token × Token)) :
    ∀ (pre : List Token) (left : AstNode) (k : Nat),
      (∀ x ∈ rest, precedence x.1.type = some 2 ∧ x.2.type ∈ literal_token_types) →
      term_loop (pre ++ chain_tokens rest) (k + rest.length + 4) left pre.length
        = .ok (left_chain left rest) (pre.length + 2 * rest.length) := by
  induction rest with
  | nil =>
    intro pre left k _
    have h : (pre ++ chain_tokens [])[pre.length]? = none := by simp [chain_tokens]
    exact term_loop_stop _ _ (is_token_none _ h)
  | cons x rest ih =>
    obtain ⟨op, operand⟩ := x
    intro pre left k hall
    obtain ⟨hop, hlit⟩ := hall (op, operand) (List.mem_cons_self _ _)
    have hrest : ∀ x ∈ rest, precedence x.1.type = some 2 ∧ x.2.type ∈ literal_token_types :=
      fun x hx => hall x (List.mem_cons_of_mem _ hx)
    obtain ⟨-, -, l2, -, -, -, -, -⟩ :=
      is_token_operator _ _ (chain_tokens_operator pre op operand rest) hop
    have hfuel : k + ((op, operand) :: rest).length + 4 = (k + rest.length + 1 + 3) + 1 := by
      simp only [List.length_cons]; omega
    have hnext := is_token_chain (pre ++ [op, operand]) rest 2 (fun x hx => (hrest x hx).1)
    have hlen : (pre ++ [op, operand]).length = pre.length + 1 + 1 := by simp
    rw [← chain_tokens_shift, hlen] at hnext
    rw [hfuel, term_loop_step _ _ (chain_tokens_operator pre op operand rest)
      (by simpa using l2),
      subterm_literal _ (chain_tokens_operand pre op operand rest) hlit hnext.1 hnext.2.1
        (hnext.2.2.1 (by decide))]
    simp only [Result.bind]
    have := ih (pre ++ [op, operand]) (.BinaryOperationNode left op (.LiteralNode operand)) k
      hrest
    rw [← chain_tokens_shift, hlen] at this
    rw [this]
    simp only [left_chain, List.foldl_cons, List.length_cons]
    congr 1
    omega

/-- C2. For `n ≥ 1`, literals `o0 ... on` and operators `op1 ... opn` that are
all `+` or `-`, or all `*` or `/`, `parse_expression(false)` on the tokens
`o0 op1 o1 ... opn on` returns the chain leaning to the left,
`BinaryOperation(...BinaryOperation(o0, op1, o1)..., opn, on)`, with the cursor
at the end of the tokens, given fuel for `n + 9` nested calls. -/
theorem left_associative (o0 : Token) (rest : List (Token × Token)) (level : Nat)
    (hn : 1 ≤ rest.length) (h0 : o0.type ∈ literal_token_types)
    (hlevel : level = 2 ∨ level = 3)
    (hrest : ∀ x ∈ rest, precedence x.1.type = some level ∧ x.2.type ∈ literal_token_types)
    (fuel : Nat) (hfuel : rest.length + 9 ≤ fuel) :
    parse_expression (o0 :: chain_tokens rest) fuel false 0
      = .ok (left_chain (.LiteralNode o0) rest) (o0 :: chain_tokens rest).length := by
  obtain ⟨k, rfl⟩ := Nat.exists_eq_add_of_le' hfuel
  have f0 : (o0 :: chain_tokens rest)[0]? = some o0 := by simp
  have hlen : (o0 :: chain_tokens rest).length = 1 + 2 * rest.length := by
    simp [chain_tokens_length]; omega
  have hend : (o0 :: chain_tokens rest)[1 + 2 * rest.length]? = none :=
    chain_tokens_end [o0] rest
  have hhead : is_token (o0 :: chain_tokens rest) [.LPAREN] (0 + 1) = false
      ∧ is_token (o0 :: chain_tokens rest) [.LSQPAREN] (0 + 1) = false
      ∧ (level ≠ 3 → is_token (o0 :: chain_tokens rest) [.ASTERISK, .SLASH] 1 = false)
      ∧ (level ≠ 2 → is_token (o0 :: chain_tokens rest) [.PLUS, .MINUS] 1 = false) :=
    is_token_chain [o0] rest level (fun x hx => (hrest x hx).1)
  have hbin : ∃ op, (o0 :: chain_tokens rest)[0 + 1]? = some op
      ∧ op.type ∈ binary_token_types := by
    rcases rest with _ | ⟨⟨op, operand⟩, tail⟩
    · simp at hn
    · obtain ⟨hop, -⟩ := hrest (op, operand) (List.mem_cons_self _ _)
      have f1 : (o0 :: chain_tokens ((op, operand) :: tail))[0 + 1]? = some op :=
        chain_tokens_operator [o0] op operand tail
      obtain ⟨-, -, -, -, l4, -, -, -⟩ := is_token_operator _ _ f1 hop
      rw [is_token_some _ f1] at l4
      exact ⟨op, f1, by simpa using l4⟩
  obtain ⟨op, f1, hbin⟩ := hbin
  rw [show k + (rest.length + 9) = (k + rest.length + 7) + 2 by omega,
    parse_expression_rewind _ f0 h0 f1 hbin, hlen]
  simp only [parse_binary, headterm, term, subterm]
  rw [parse_expression_literal _ f0 h0 hhead.1 hhead.2.1]
  simp only [Result.bind, Nat.zero_add]
  rcases hlevel with rfl | rfl
  · have hchain : term_loop (o0 :: chain_tokens rest) (k + rest.length + 4)
        (.LiteralNode o0) 1 = .ok (left_chain (.LiteralNode o0) rest) (1 + 2 * rest.length) :=
      term_loop_chain rest [o0] (.LiteralNode o0) k hrest
    rw [subterm_loop_stop _ _ (hhead.2.2.1 (by decide))]
    simp only [hchain]
    rw [headterm_loop_stop _ _ (is_token_none _ hend)]
    simp only []
    rw [parse_binary_loop_stop _ _ (is_token_none _ hend)]
    simp only []
    exact subparse_at_end _ _ _ _ hend
  · have hchain : subterm_loop (o0 :: chain_tokens rest) (k + rest.length + 3)
        (.LiteralNode o0) 1 = .ok (left_chain (.LiteralNode o0) rest) (1 + 2 * rest.length) :=
      subterm_loop_chain rest [o0] (.LiteralNode o0) k hrest
    simp only [hchain]
    rw [term_loop_stop _ _ (is_token_none _ hend)]
    simp only []
    rw [headterm_loop_stop _ _ (is_token_none _ hend)]
    simp only []
    rw [parse_binary_loop_stop _ _ (is_token_none _ hend)]
    simp only []
    exact subparse_at_end _ _ _ _ hend
theorem left_associative_witness :
    (1 ≤ [((⟨.PLUS, "+", 2⟩ : Token), (⟨.DIGIT, "2", 4⟩ : Token)),
          ((⟨.PLUS, "+", 6⟩ : Token), (⟨.DIGIT, "3", 8⟩ : Token))].length
        ∧ (⟨.DIGIT, "1", 0⟩ : Token).type ∈ literal_token_types
        ∧ ((2 : Nat) = 2 ∨ (2 : Nat) = 3)
        ∧ (∀ x ∈ [((⟨.PLUS, "+", 2⟩ : Token), (⟨.DIGIT, "2", 4⟩ : Token)),
              ((⟨.PLUS, "+", 6⟩ : Token), (⟨.DIGIT, "3", 8⟩ : Token))],
            precedence x.1.type = some 2 ∧ x.2.type ∈ literal_token_types)
        ∧ 2 + 9 ≤ 11)
      ∧ parse_expression
          [⟨.DIGIT, "1", 0⟩, ⟨.PLUS, "+", 2⟩, ⟨.DIGIT, "2", 4⟩, ⟨.PLUS, "+", 6⟩,
            ⟨.DIGIT, "3", 8⟩] 11 false 0
        = .ok (.BinaryOperationNode
            (.BinaryOperationNode (.LiteralNode ⟨.DIGIT, "1", 0⟩) ⟨.PLUS, "+", 2⟩
              (.LiteralNode ⟨.DIGIT, "2", 4⟩))
            ⟨.PLUS, "+", 6⟩ (.LiteralNode ⟨.DIGIT, "3", 8⟩)) 5 :=
  ⟨by decide,
    left_associative ⟨.DIGIT, "1", 0⟩
      [(⟨.PLUS, "+", 2⟩, ⟨.DIGIT, "2", 4⟩), (⟨.PLUS, "+", 6⟩, ⟨.DIGIT, "3", 8⟩)] 2
      (by decide) (by decide) (Or.inl rfl) (by decide) 11 (by decide)⟩
/-- When `eat` returns, the cursor was on a token of one of the kinds asked
for, that token is returned and the cursor has moved by one; and conversely. -/
theorem eat_ok_iff (tokens : List Token) (types : List TokenType) (p q : Nat) (t : Token) :
    eat tokens types p = .ok t q ↔ tokens[p]? = some t ∧ t.type ∈ types ∧ q = p + 1 := by
  cases h : tokens[p]? with
  | none => simp [eat, h]
  | some t0 =>
    by_cases hmem : t0.type ∈ types
    · rw [eat_mem h hmem]
      constructor
      · intro e
        injection e with e1 e2
        subst e1
        exact ⟨rfl, hmem, e2.symm⟩
      · rintro ⟨e1, -, e2⟩
        injection e1 with e1
        rw [e1, e2]
    · rw [eat_not_mem h hmem]
      constructor
      · intro e
        cases e
      · rintro ⟨e1, hm, -⟩
        injection e1 with e1
        rw [e1] at hmem
        exact absurd hm hmem

/-- Whatever `eat` throws, the cursor stays where it was; `eat` has no other
way to fail. -/
theorem eat_thrown (tokens : List Token) (types : List TokenType) (p q : Nat) (e : Thrown) :
    (eat tokens types p = .thrown e q → q = p)
      ∧ eat tokens types p ≠ .undefined ∧ eat tokens types p ≠ .out_of_fuel := by
  cases h : tokens[p]? with
  | none => simp [eat, h]; intro _ hq; exact hq.symm
  | some t0 =>
    by_cases hmem : t0.type ∈ types
    · rw [eat_mem h hmem]; simp
    · rw [eat_not_mem h hmem]; simp; intro _ hq; exact hq.symm

/-- C10. After `fn`, with the cursor on a token of kind `AND`, `eat` asked for
an identifier throws a message whose `given:` part is empty, the same message
that it throws on a token of kind `OR`: the kind found is not named. Asked for
the kind `TYPE`, it names no expected kind. The map `token_types_names` has no
entry for `AND`, `OR` and `TYPE`. -/
theorem eat_kind_not_named :
    eat [⟨.FUNCTION, "fn", 0⟩, ⟨.AND, "and", 3⟩] [.IDENTIFIER] 1
        = .thrown (.runtime_error
            "Syntax error: Expected token: identifier , given: , at position: 1") 1
      ∧ eat [⟨.FUNCTION, "fn", 0⟩, ⟨.OR, "or", 3⟩] [.IDENTIFIER] 1
        = .thrown (.runtime_error
            "Syntax error: Expected token: identifier , given: , at position: 1") 1
      ∧ eat [⟨.PLUS, "+", 0⟩] [.TYPE] 0
        = .thrown (.runtime_error
            "Syntax error: Expected token:  , given: +, at position: 0") 0 := by
  refine ⟨?_, ?_, ?_⟩ <;> decide
/-- C15. At a position `p` below the number of tokens `is_token(K, p)` is true
exactly when the kind of the token at `p` is in `K`; at a position from the
number of tokens on it is false. It is a function of the tokens, `K` and `p`
alone and returns only the answer: cursor and tokens are not touched. -/
theorem is_token_spec (tokens : List Token) (types : List TokenType) (p : Nat) :
    (∀ h : p < tokens.length, (is_token tokens types p = true ↔ tokens[p].type ∈ types))
      ∧ (tokens.length ≤ p → is_token tokens types p = false) := by
  constructor
  · intro h
    rw [is_token_some types (List.getElem?_eq_getElem h)]
    simp
  · intro h
    exact is_token_none types (List.getElem?_eq_none h)

theorem is_token_spec_witness :
    (0 < [(⟨.FUNCTION, "fn", 0⟩ : Token)].length ∧ [(⟨.FUNCTION, "fn", 0⟩ : Token)].length ≤ 1)
      ∧ is_token [⟨.FUNCTION, "fn", 0⟩] [.FUNCTION, .IF] 0 = true
      ∧ is_token [⟨.FUNCTION, "fn", 0⟩] [.FUNCTION, .IF] 1 = false :=
  ⟨by decide,
    ((is_token_spec [⟨.FUNCTION, "fn", 0⟩] [.FUNCTION, .IF] 0).1 (by decide)).2 (by decide),
    (is_token_spec [⟨.FUNCTION, "fn", 0⟩] [.FUNCTION, .IF] 1).2 (by decide)⟩

/-- C16. `match(K)` returns true with the cursor moved by exactly one when the
cursor is on a token whose kind is in `K`, and only then; otherwise it returns
false with the cursor where it was. The tokens are an argument that is not
returned: they stay as they are. -/
theorem match_spec (tokens : List Token) (types : List TokenType) (p : Nat) :
    (match_ tokens types p = (true, p + 1) ↔ ∃ t, tokens[p]? = some t ∧ t.type ∈ types)
      ∧ (match_ tokens types p = (false, p) ↔ ¬ ∃ t, tokens[p]? = some t ∧ t.type ∈ types)
      ∧ (match_ tokens types p = (true, p + 1) ∨ match_ tokens types p = (false, p)) := by
  cases h : tokens[p]? with
  | none => simp [match_, is_token, h]
  | some t0 =>
    by_cases hmem : t0.type ∈ types <;> simp [match_, is_token, h, hmem]

/-! ### Where the parser stops -/

theorem bind_eq_ok {α β : Type} {r : Result α} {k : α → Nat → Result β} {v : β} {q : Nat}
    (h : r.bind k = .ok v q) : ∃ v0 q0, r = .ok v0 q0 ∧ k v0 q0 = .ok v q := by
  cases r with
  | ok v0 q0 => exact ⟨v0, q0, rfl, h⟩
  | thrown e q0 => simp [Result.bind] at h
  | undefined => simp [Result.bind] at h
  | out_of_fuel => simp [Result.bind] at h

/-- Where `subparse` returns, the cursor is on no `(`, no `[` and, unless
binary operators are ignored, on no binary operator. -/
theorem subparse_stops (tokens : List Token) :
    ∀ (fuel : Nat) (expression : AstNode) (started_position : Nat) (ignore_binaries : Bool)
      (p : Nat) (node : AstNode) (q : Nat),
      subparse tokens fuel expression started_position ignore_binaries p = .ok node q →
      is_token tokens [.LPAREN] q = false ∧ is_token tokens [.LSQPAREN] q = false
        ∧ (ignore_binaries = false → is_token tokens binary_token_types q = false) := by
  intro fuel
  induction fuel with
  | zero => intro _ _ _ _ _ _ h; simp [subparse] at h
  | succ fuel ih =>
    intro expression started_position ignore_binaries p node q h
    simp only [subparse] at h
    split at h
    · obtain ⟨v0, q0, -, h2⟩ := bind_eq_ok h
      exact ih _ _ _ _ _ _ h2
    · split at h
      · obtain ⟨v0, q0, -, h2⟩ := bind_eq_ok h
        exact ih _ _ _ _ _ _ h2
      · split at h
        · obtain ⟨v0, q0, -, h2⟩ := bind_eq_ok h
          exact ih _ _ _ _ _ _ h2
        · rename_i h1 h2 h3
          injection h with _ hq
          subst hq
          refine ⟨by simpa using h1, by simpa using h2, ?_⟩
          intro hig
          subst hig
          simpa using h3

theorem bind_ite {α β : Type} (c : Prop) [Decidable c] (a b : Result α)
    (k : α → Nat → Result β) :
    (if c then a else b).bind k = if c then a.bind k else b.bind k := by
  by_cases h : c
  · rw [if_pos h, if_pos h]
  · rw [if_neg h, if_neg h]

/-- The function `parse_expression` is its dispatch followed by `subparse`. -/
theorem parse_expression_primary (tokens : List Token) (fuel : Nat) (ig : Bool) (p : Nat) :
    parse_expression tokens (fuel + 1) ig p
      = (primary tokens fuel p).bind fun expression position =>
          subparse tokens fuel expression p ig position := by
  simp only [parse_expression, primary, bind_ite]
  rfl

/-- Where `parse_expression` returns, the cursor is on no `(`, no `[` and,
unless binary operators are ignored, on no binary operator. -/
theorem parse_expression_stops (tokens : List Token) (fuel : Nat) (ignore_binaries : Bool)
    (p : Nat) (node : AstNode) (q : Nat)
    (h : parse_expression tokens fuel ignore_binaries p = .ok node q) :
    is_token tokens [.LPAREN] q = false ∧ is_token tokens [.LSQPAREN] q = false
      ∧ (ignore_binaries = false → is_token tokens binary_token_types q = false) := by
  cases fuel with
  | zero => simp [parse_expression] at h
  | succ fuel =>
    rw [parse_expression_primary] at h
    obtain ⟨v0, q0, -, h2⟩ := bind_eq_ok h
    exact subparse_stops tokens _ _ _ _ _ _ _ h2

/-- What `is_token` answers at one of the keywords `return`, `print`, `wait`. -/
theorem is_token_unary (tokens : List Token) (p : Nat) {t : Token}
    (h : tokens[p]? = some t) (hu : t.type ∈ unary_token_types) :
    is_token tokens [.FUNCTION] p = false
      ∧ is_token tokens literal_token_types p = false
      ∧ is_token tokens [.IDENTIFIER] p = false
      ∧ is_token tokens [.LPAREN] p = false
      ∧ is_token tokens unary_token_types p = true := by
  simp only [is_token_some _ h]
  revert hu
  cases t.type <;> simp [unary_token_types, literal_token_types]

/-- C20. With one of `return`, `print`, `wait` at the cursor `p`,
`parse_expression`, whatever its flag, does what `parse_expression(false)`
does from `p + 1`, two calls deeper: it returns `UnaryOperation(u, e)` with the
same cursor when that returns `e`, and fails as that fails. So `print 1 + 2`
is `UnaryOperation(print, BinaryOperation(1, +, 2))`, and `2 * print 3 + 4` is
`BinaryOperation(2, *, UnaryOperation(print, BinaryOperation(3, +, 4)))`. -/
theorem unary_takes_expression (tokens : List Token) (p : Nat) (u : Token) (fuel : Nat)
    (flag : Bool) (h : tokens[p]? = some u) (hu : u.type ∈ unary_token_types) :
    parse_expression tokens (fuel + 2) flag p
        = ((parse_expression tokens fuel false (p + 1)).bind fun e q =>
            .ok (.UnaryOperationNode u e) q)
      ∧ (∀ node q, parse_expression tokens (fuel + 2) flag p = .ok node q ↔
          ∃ e, parse_expression tokens fuel false (p + 1) = .ok e q
            ∧ node = .UnaryOperationNode u e)
      ∧ parse_expression
          [⟨.PRINT, "print", 0⟩, ⟨.DIGIT, "1", 6⟩, ⟨.PLUS, "+", 8⟩, ⟨.DIGIT, "2", 10⟩] 12 false 0
        = .ok (.UnaryOperationNode ⟨.PRINT, "print", 0⟩
            (.BinaryOperationNode (.LiteralNode ⟨.DIGIT, "1", 6⟩) ⟨.PLUS, "+", 8⟩
              (.LiteralNode ⟨.DIGIT, "2", 10⟩))) 4
      ∧ parse_expression
          [⟨.DIGIT, "2", 0⟩, ⟨.ASTERISK, "*", 2⟩, ⟨.PRINT, "print", 4⟩, ⟨.DIGIT, "3", 10⟩,
            ⟨.PLUS, "+", 12⟩, ⟨.DIGIT, "4", 14⟩] 20 false 0
        = .ok (.BinaryOperationNode (.LiteralNode ⟨.DIGIT, "2", 0⟩) ⟨.ASTERISK, "*", 2⟩
            (.UnaryOperationNode ⟨.PRINT, "print", 4⟩
              (.BinaryOperationNode (.LiteralNode ⟨.DIGIT, "3", 10⟩) ⟨.PLUS, "+", 12⟩
                (.LiteralNode ⟨.DIGIT, "4", 14⟩)))) 6 := by
  have heq : parse_expression tokens (fuel + 2) flag p
      = ((parse_expression tokens fuel false (p + 1)).bind fun e q =>
          .ok (.UnaryOperationNode u e) q) := by
    obtain ⟨u1, u2, u3, u4, u5⟩ := is_token_unary tokens p h hu
    simp only [parse_expression, u1, u2, u3, u4, u5, parse_unary, eat_mem h hu, Result.bind,
      default_ignore_binaries, Bool.false_eq_true, if_false, if_true]
    cases hinner : parse_expression tokens fuel false (p + 1) with
    | ok e q =>
      obtain ⟨s1, s2, s3⟩ := parse_expression_stops tokens fuel false (p + 1) e q hinner
      simp [subparse, s1, s2, s3 rfl]
    | thrown e q => rfl
    | undefined => rfl
    | out_of_fuel => rfl
  refine ⟨heq, ?_, rfl, rfl⟩
  intro node q
  rw [heq]
  cases hinner : parse_expression tokens fuel false (p + 1) with
  | ok e q0 =>
    simp only [Result.bind, Result.ok.injEq]
    constructor
    · rintro ⟨rfl, rfl⟩; exact ⟨e, ⟨rfl, rfl⟩, rfl⟩
    · rintro ⟨e1, ⟨rfl, rfl⟩, rfl⟩; exact ⟨rfl, rfl⟩
  | thrown e q => simp [Result.bind]
  | undefined => simp [Result.bind]
  | out_of_fuel => simp [Result.bind]

theorem unary_takes_expression_witness :
    ([(⟨.PRINT, "print", 0⟩ : Token), ⟨.DIGIT, "1", 6⟩, ⟨.PLUS, "+", 8⟩, ⟨.DIGIT, "2", 10⟩][0]?
          = some ⟨.PRINT, "print", 0⟩
        ∧ (⟨.PRINT, "print", 0⟩ : Token).type ∈ unary_token_types)
      ∧ parse_expression
          [⟨.PRINT, "print", 0⟩, ⟨.DIGIT, "1", 6⟩, ⟨.PLUS, "+", 8⟩, ⟨.DIGIT, "2", 10⟩] 12 true 0
        = ((parse_expression
            [⟨.PRINT, "print", 0⟩, ⟨.DIGIT, "1", 6⟩, ⟨.PLUS, "+", 8⟩, ⟨.DIGIT, "2", 10⟩]
            10 false 1).bind fun e q => .ok (.UnaryOperationNode ⟨.PRINT, "print", 0⟩ e) q) :=
  ⟨by decide,
    (unary_takes_expression
      [⟨.PRINT, "print", 0⟩, ⟨.DIGIT, "1", 6⟩, ⟨.PLUS, "+", 8⟩, ⟨.DIGIT, "2", 10⟩] 0
      ⟨.PRINT, "print", 0⟩ 10 true (by decide) (by decide)).1⟩

/-! ### The cursor stays within the tokens -/

theorem bounded_bind {α β : Type} {n : Nat} {r : Result α} {k : α → Nat → Result β}
    (hr : r.bounded n) (hk : ∀ v q, q ≤ n → (k v q).bounded n) : (r.bind k).bounded n := by
  cases r with
  | ok v q => exact hk v q hr
  | thrown e q => exact hr
  | undefined => trivial
  | out_of_fuel => trivial

theorem eat_bounded (tokens : List Token) (types : List TokenType) (p : Nat)
    (hp0 : p ≤ tokens.length) : (eat tokens types p).bounded tokens.length := by
  cases h : tokens[p]? with
  | none => simp [eat, h, Result.bounded, hp0]
  | some t =>
    have hp : p < tokens.length := by
      by_contra hc
      rw [List.getElem?_eq_none (Nat.le_of_not_lt hc)] at h
      cases h
    by_cases hmem : t.type ∈ types
    · rw [eat_mem h hmem]; exact hp
    · rw [eat_not_mem h hmem]; exact hp.le

theorem match_bounded (tokens : List Token) (types : List TokenType) (p : Nat)
    (hp : p ≤ tokens.length) : (match_ tokens types p).2 ≤ tokens.length := by
  cases h : tokens[p]? with
  | none => simp [match_, is_token, h, hp]
  | some t =>
    have hlt : p < tokens.length := by
      by_contra hc
      rw [List.getElem?_eq_none (Nat.le_of_not_lt hc)] at h
      cases h
    simp only [match_]
    split
    · exact hlt
    · exact hp

theorem match_eq_bounded (tokens : List Token) (types : List TokenType) (p : Nat) (b : Bool)
    (q : Nat) (hp : p ≤ tokens.length) (h : match_ tokens types p = (b, q)) :
    q ≤ tokens.length := by
  have := match_bounded tokens types p hp
  rw [h] at this
  exact this

theorem parse_literal_bounded (tokens : List Token) (p : Nat) (hp : p ≤ tokens.length) :
    (parse_literal tokens p).bounded tokens.length := by
  unfold parse_literal
  exact bounded_bind (eat_bounded tokens _ p hp) (fun _ _ hq => hq)


theorem bounded_ite {α : Type} {n : Nat} {c : Prop} [Decidable c] {a b : Result α}
    (ha : c → a.bounded n) (hb : ¬c → b.bounded n) : (if c then a else b).bounded n := by
  split
  · exact ha ‹_›
  · exact hb ‹_›

theorem lt_length_of_getElem? {tokens : List Token} {p : Nat} {t : Token}
    (h : tokens[p]? = some t) : p < tokens.length := by
  by_contra hc
  rw [List.getElem?_eq_none (Nat.le_of_not_lt hc)] at h
  cases h
/-- Every function of the parser, started with the cursor at most the number
of tokens, leaves it at most the number of tokens, whether it returns or
throws; `subparse` needs the same of the start it may rewind to. -/
theorem parser_bounded (tokens : List Token) (fuel : Nat) :
    (∀ ig p, p ≤ tokens.length → (parse_expression tokens fuel ig p).bounded tokens.length)
    ∧ (∀ p, p ≤ tokens.length → (parse_if tokens fuel p).bounded tokens.length)
    ∧ (∀ p, p ≤ tokens.length → (parse_object tokens fuel p).bounded tokens.length)
    ∧ (∀ l p, p ≤ tokens.length → (parse_object_loop tokens fuel l p).bounded tokens.length)
    ∧ (∀ p, p ≤ tokens.length → (parse_array tokens fuel p).bounded tokens.length)
    ∧ (∀ l p, p ≤ tokens.length → (parse_array_loop tokens fuel l p).bounded tokens.length)
    ∧ (∀ e s ig p, s ≤ tokens.length → p ≤ tokens.length →
        (subparse tokens fuel e s ig p).bounded tokens.length)
    ∧ (∀ p, p ≤ tokens.length → (parse_while tokens fuel p).bounded tokens.length)
    ∧ (∀ p, p ≤ tokens.length → (parse_binary tokens fuel p).bounded tokens.length)
    ∧ (∀ l p, p ≤ tokens.length → (parse_binary_loop tokens fuel l p).bounded tokens.length)
    ∧ (∀ p, p ≤ tokens.length → (headterm tokens fuel p).bounded tokens.length)
    ∧ (∀ l p, p ≤ tokens.length → (headterm_loop tokens fuel l p).bounded tokens.length)
    ∧ (∀ p, p ≤ tokens.length → (term tokens fuel p).bounded tokens.length)
    ∧ (∀ l p, p ≤ tokens.length → (term_loop tokens fuel l p).bounded tokens.length)
    ∧ (∀ p, p ≤ tokens.length → (subterm tokens fuel p).bounded tokens.length)
    ∧ (∀ l p, p ≤ tokens.length → (subterm_loop tokens fuel l p).bounded tokens.length)
    ∧ (∀ p, p ≤ tokens.length → (parse_typedef tokens fuel p).bounded tokens.length)
    ∧ (∀ p, p ≤ tokens.length → (parse_unary tokens fuel p).bounded tokens.length)
    ∧ (∀ e p, p ≤ tokens.length → (parse_call tokens fuel e p).bounded tokens.length)
    ∧ (∀ l p, p ≤ tokens.length → (parse_call_loop tokens fuel l p).bounded tokens.length)
    ∧ (∀ e p, p ≤ tokens.length → (parse_indexation tokens fuel e p).bounded tokens.length)
    ∧ (∀ p, p ≤ tokens.length → (parse_parenthisized tokens fuel p).bounded tokens.length)
    ∧ (∀ p, p ≤ tokens.length → (parse_function tokens fuel p).bounded tokens.length)
    ∧ (∀ l p, p ≤ tokens.length → (parse_function_loop tokens fuel l p).bounded tokens.length)
    ∧ (∀ p, p ≤ tokens.length → (parse_block tokens fuel p).bounded tokens.length)
    ∧ (∀ l p, p ≤ tokens.length → (parse_block_loop tokens fuel l p).bounded tokens.length)
    ∧ (∀ p, p ≤ tokens.length → (parse_identifier tokens fuel p).bounded tokens.length) := by
  induction fuel with
  | zero =>
    simp only [parse_expression, parse_if, parse_object, parse_object_loop, parse_array,
      parse_array_loop, subparse, parse_while, parse_binary, parse_binary_loop, headterm,
      headterm_loop, term, term_loop, subterm, subterm_loop, parse_typedef, parse_unary,
      parse_call, parse_call_loop, parse_indexation, parse_parenthisized, parse_function,
      parse_function_loop, parse_block, parse_block_loop, parse_identifier, Result.bounded,
      implies_true, and_self]
  | succ fuel ih =>
    obtain ⟨i1, i2, i3, i4, i5, i6, i7, i8, i9, i10, i11, i12, i13, i14, i15, i16, i17, i18,
      i19, i20, i21, i22, i23, i24, i25, i26, i27⟩ := ih
    have he := eat_bounded tokens
    have hm := match_bounded tokens
    have hl := parse_literal_bounded tokens
    refine ⟨?_, ?_, ?_, ?_, ?_, ?_, ?_, ?_, ?_, ?_, ?_, ?_, ?_, ?_, ?_, ?_, ?_, ?_, ?_, ?_, ?_,
      ?_, ?_, ?_, ?_, ?_, ?_⟩
    · intro ig p hp
      simp only [parse_expression]
      repeat' first
        | with_reducible refine bounded_ite (fun _ => ?_) (fun _ => ?_)
        | with_reducible refine bounded_bind ?_ (fun _ _ _ => ?_)
        | (simp only [Result.bounded]; done)
        | with_reducible solve_by_elim
    · intro p hp
      simp only [parse_if]
      repeat' first
        | with_reducible refine bounded_ite (fun _ => ?_) (fun _ => ?_)
        | with_reducible refine bounded_bind ?_ (fun _ _ _ => ?_)
        | (simp only [Result.bounded]; with_reducible assumption)
        | with_reducible solve_by_elim
    · intro p hp
      simp only [parse_object]
      repeat' first
        | with_reducible refine bounded_ite (fun _ => ?_) (fun _ => ?_)
        | with_reducible refine bounded_bind ?_ (fun _ _ _ => ?_)
        | (simp only [Result.bounded]; with_reducible assumption)
        | with_reducible solve_by_elim
    · intro l p hp
      simp only [parse_object_loop]
      repeat' first
        | with_reducible refine bounded_ite (fun _ => ?_) (fun _ => ?_)
        | with_reducible refine bounded_bind ?_ (fun _ _ _ => ?_)
        | (simp only [Result.bounded]; with_reducible assumption)
        | with_reducible solve_by_elim
    · intro p hp
      simp only [parse_array]
      repeat' first
        | with_reducible refine bounded_ite (fun _ => ?_) (fun _ => ?_)
        | with_reducible refine bounded_bind ?_ (fun _ _ _ => ?_)
        | (simp only [Result.bounded]; with_reducible assumption)
        | with_reducible solve_by_elim
    · intro l p hp
      simp only [parse_array_loop]
      repeat' first
        | with_reducible refine bounded_ite (fun _ => ?_) (fun _ => ?_)
        | with_reducible refine bounded_bind ?_ (fun _ _ _ => ?_)
        | (simp only [Result.bounded]; with_reducible assumption)
        | with_reducible solve_by_elim
    · intro e s ig p hs hp
      simp only [subparse]
      repeat' first
        | with_reducible refine bounded_ite (fun _ => ?_) (fun _ => ?_)
        | with_reducible refine bounded_bind ?_ (fun _ _ _ => ?_)
        | (simp only [Result.bounded]; with_reducible assumption)
        | with_reducible solve_by_elim
    · intro p hp
      simp only [parse_while]
      repeat' first
        | with_reducible refine bounded_ite (fun _ => ?_) (fun _ => ?_)
        | with_reducible refine bounded_bind ?_ (fun _ _ _ => ?_)
        | (simp only [Result.bounded]; with_reducible assumption)
        | with_reducible solve_by_elim
    · intro p hp
      simp only [parse_binary]
      repeat' first
        | with_reducible refine bounded_ite (fun _ => ?_) (fun _ => ?_)
        | with_reducible refine bounded_bind ?_ (fun _ _ _ => ?_)
        | with_reducible solve_by_elim
    · intro l p hp
      cases hop : tokens[p]? with
      | none => rw [parse_binary_loop_stop _ _ (is_token_none _ hop)]; exact hp
      | some op =>
        by_cases ht : is_token tokens
            [.AND, .OR] p = true
        · rw [parse_binary_loop_step _ _ hop ht]
          exact bounded_bind (i11 _ (lt_length_of_getElem? hop))
            (fun _ _ hq => i10 _ _ hq)
        · rw [parse_binary_loop_stop _ _ (by simpa using ht)]; exact hp
    · intro p hp
      simp only [headterm]
      repeat' first
        | with_reducible refine bounded_ite (fun _ => ?_) (fun _ => ?_)
        | with_reducible refine bounded_bind ?_ (fun _ _ _ => ?_)
        | with_reducible solve_by_elim
    · intro l p hp
      cases hop : tokens[p]? with
      | none => rw [headterm_loop_stop _ _ (is_token_none _ hop)]; exact hp
      | some op =>
        by_cases ht : is_token tokens
            [.ASSIGN, .EQ, .NOTEQ, .BIGGER, .SMALLER, .BIGGER_OR_EQ, .SMALLER_OR_EQ] p = true
        · rw [headterm_loop_step _ _ hop ht]
          exact bounded_bind (i13 _ (lt_length_of_getElem? hop))
            (fun _ _ hq => i12 _ _ hq)
        · rw [headterm_loop_stop _ _ (by simpa using ht)]; exact hp
    · intro p hp
      simp only [term]
      repeat' first
        | with_reducible refine bounded_ite (fun _ => ?_) (fun _ => ?_)
        | with_reducible refine bounded_bind ?_ (fun _ _ _ => ?_)
        | with_reducible solve_by_elim
    · intro l p hp
      cases hop : tokens[p]? with
      | none => rw [term_loop_stop _ _ (is_token_none _ hop)]; exact hp
      | some op =>
        by_cases ht : is_token tokens
            [.PLUS, .MINUS] p = true
        · rw [term_loop_step _ _ hop ht]
          exact bounded_bind (i15 _ (lt_length_of_getElem? hop))
            (fun _ _ hq => i14 _ _ hq)
        · rw [term_loop_stop _ _ (by simpa using ht)]; exact hp
    · intro p hp
      simp only [subterm]
      repeat' first
        | with_reducible refine bounded_ite (fun _ => ?_) (fun _ => ?_)
        | with_reducible refine bounded_bind ?_ (fun _ _ _ => ?_)
        | with_reducible solve_by_elim
    · intro l p hp
      cases hop : tokens[p]? with
      | none => rw [subterm_loop_stop _ _ (is_token_none _ hop)]; exact hp
      | some op =>
        by_cases ht : is_token tokens
            [.ASTERISK, .SLASH] p = true
        · rw [subterm_loop_step _ _ hop ht]
          exact bounded_bind (i1 _ _ (lt_length_of_getElem? hop))
            (fun _ _ hq => i16 _ _ hq)
        · rw [subterm_loop_stop _ _ (by simpa using ht)]; exact hp
    · intro p hp
      simp only [parse_typedef]
      repeat' first
        | with_reducible refine bounded_ite (fun _ => ?_) (fun _ => ?_)
        | with_reducible refine bounded_bind ?_ (fun _ _ _ => ?_)
        | (simp only [Result.bounded]; with_reducible assumption)
        | with_reducible solve_by_elim
    · intro p hp
      simp only [parse_unary]
      repeat' first
        | with_reducible refine bounded_ite (fun _ => ?_) (fun _ => ?_)
        | with_reducible refine bounded_bind ?_ (fun _ _ _ => ?_)
        | (simp only [Result.bounded]; with_reducible assumption)
        | with_reducible solve_by_elim
    · intro e p hp
      simp only [parse_call]
      repeat' first
        | with_reducible refine bounded_ite (fun _ => ?_) (fun _ => ?_)
        | with_reducible refine bounded_bind ?_ (fun _ _ _ => ?_)
        | (simp only [Result.bounded]; with_reducible assumption)
        | with_reducible solve_by_elim
    · intro l p hp
      simp only [parse_call_loop]
      repeat' first
        | with_reducible refine bounded_ite (fun _ => ?_) (fun _ => ?_)
        | with_reducible refine bounded_bind ?_ (fun _ _ _ => ?_)
        | (simp only [Result.bounded]; with_reducible assumption)
        | with_reducible solve_by_elim
    · intro e p hp
      simp only [parse_indexation]
      repeat' first
        | with_reducible refine bounded_ite (fun _ => ?_) (fun _ => ?_)
        | with_reducible refine bounded_bind ?_ (fun _ _ _ => ?_)
        | (simp only [Result.bounded]; with_reducible assumption)
        | with_reducible solve_by_elim
    · intro p hp
      simp only [parse_parenthisized]
      repeat' first
        | with_reducible refine bounded_ite (fun _ => ?_) (fun _ => ?_)
        | with_reducible refine bounded_bind ?_ (fun _ _ _ => ?_)
        | (simp only [Result.bounded]; with_reducible assumption)
        | with_reducible solve_by_elim
    · intro p hp
      simp only [parse_function]
      repeat' first
        | with_reducible refine bounded_ite (fun _ => ?_) (fun _ => ?_)
        | with_reducible refine bounded_bind ?_ (fun _ _ _ => ?_)
        | (simp only [Result.bounded]; with_reducible assumption)
        | with_reducible solve_by_elim
    · intro l p hp
      simp only [parse_function_loop]
      repeat' first
        | with_reducible refine bounded_ite (fun _ => ?_) (fun _ => ?_)
        | with_reducible refine bounded_bind ?_ (fun _ _ _ => ?_)
        | (simp only [Result.bounded]; with_reducible assumption)
        | with_reducible solve_by_elim
    · intro p hp
      simp only [parse_block]
      repeat' first
        | with_reducible refine bounded_ite (fun _ => ?_) (fun _ => ?_)
        | with_reducible refine bounded_bind ?_ (fun _ _ _ => ?_)
        | (simp only [Result.bounded]; with_reducible assumption)
        | with_reducible solve_by_elim
    · intro l p hp
      simp only [parse_block_loop]
      repeat' first
        | with_reducible refine bounded_ite (fun _ => ?_) (fun _ => ?_)
        | with_reducible refine bounded_bind ?_ (fun _ _ _ => ?_)
        | (simp only [Result.bounded]; with_reducible assumption)
        | with_reducible solve_by_elim
    · intro p hp
      simp only [parse_identifier]
      repeat' first
        | with_reducible refine bounded_ite (fun _ => ?_) (fun _ => ?_)
        | with_reducible refine bounded_bind ?_ (fun _ _ _ => ?_)
        | (simp only [Result.bounded]; with_reducible assumption)
        | with_reducible solve_by_elim

theorem make_ast_loop_bounded (tokens : List Token) (fuel : Nat) :
    ∀ (nodes : List AstNode) (p : Nat), p ≤ tokens.length →
      (make_ast_loop tokens fuel nodes p).bounded tokens.length := by
  induction fuel with
  | zero => intro nodes p hp; simp only [make_ast_loop, Result.bounded]
  | succ fuel ih =>
    intro nodes p hp
    simp only [make_ast_loop]
    refine bounded_ite (fun _ => ?_) (fun _ => hp)
    exact bounded_bind ((parser_bounded tokens fuel).1 _ _ hp)
      (fun _ _ hq => ih _ _ (match_bounded tokens _ _ hq))

/-- C13. Every operation of the parser keeps the cursor at most the number of
tokens: started with the cursor at most that (a new `Parser` starts at 0),
`match`, `eat`, `parse_expression` and every function it calls, `subparse`
with its rewind to an earlier cursor, and `make_ast` leave it at most that,
whether they return or throw. So it holds after any sequence of them. -/
theorem cursor_bound (tokens : List Token) (fuel : Nat) :
    (0 ≤ tokens.length)
    ∧ (∀ types p, p ≤ tokens.length → (match_ tokens types p).2 ≤ tokens.length)
    ∧ (∀ types p, p ≤ tokens.length → (eat tokens types p).bounded tokens.length)
    ∧ (∀ p, p ≤ tokens.length → (parse_literal tokens p).bounded tokens.length)
    ∧ (∀ ig p, p ≤ tokens.length → (parse_expression tokens fuel ig p).bounded tokens.length)
    ∧ (∀ e s ig p, s ≤ tokens.length → p ≤ tokens.length →
        (subparse tokens fuel e s ig p).bounded tokens.length)
    ∧ (∀ p, p ≤ tokens.length →
        (parse_if tokens fuel p).bounded tokens.length
        ∧ (parse_object tokens fuel p).bounded tokens.length
        ∧ (parse_array tokens fuel p).bounded tokens.length
        ∧ (parse_while tokens fuel p).bounded tokens.length
        ∧ (parse_binary tokens fuel p).bounded tokens.length
        ∧ (headterm tokens fuel p).bounded tokens.length
        ∧ (term tokens fuel p).bounded tokens.length
        ∧ (subterm tokens fuel p).bounded tokens.length
        ∧ (parse_typedef tokens fuel p).bounded tokens.length
        ∧ (parse_unary tokens fuel p).bounded tokens.length
        ∧ (parse_parenthisized tokens fuel p).bounded tokens.length
        ∧ (parse_function tokens fuel p).bounded tokens.length
        ∧ (parse_block tokens fuel p).bounded tokens.length
        ∧ (parse_identifier tokens fuel p).bounded tokens.length)
    ∧ (∀ e p, p ≤ tokens.length →
        (parse_call tokens fuel e p).bounded tokens.length
        ∧ (parse_indexation tokens fuel e p).bounded tokens.length)
    ∧ (make_ast tokens fuel).bounded tokens.length := by
  obtain ⟨i1, i2, i3, i4, i5, i6, i7, i8, i9, i10, i11, i12, i13, i14, i15, i16, i17, i18,
    i19, i20, i21, i22, i23, i24, i25, i26, i27⟩ := parser_bounded tokens fuel
  refine ⟨Nat.zero_le _, match_bounded tokens, eat_bounded tokens, parse_literal_bounded tokens,
    i1, i7, ?_, ?_, ?_⟩
  · intro p hp
    exact ⟨i2 p hp, i3 p hp, i5 p hp, i8 p hp, i9 p hp, i11 p hp, i13 p hp, i15 p hp,
      i17 p hp, i18 p hp, i22 p hp, i23 p hp, i25 p hp, i27 p hp⟩
  · intro e p hp
    exact ⟨i19 e p hp, i21 e p hp⟩
  · unfold make_ast
    exact bounded_bind (make_ast_loop_bounded tokens fuel [] 0 (Nat.zero_le _))
      (fun _ _ hq => hq)

theorem cursor_bound_witness :
    (0 ≤ [(⟨.DIGIT, "1", 0⟩ : Token), ⟨.PLUS, "+", 2⟩, ⟨.DIGIT, "2", 4⟩].length)
      ∧ (parse_expression [⟨.DIGIT, "1", 0⟩, ⟨.PLUS, "+", 2⟩, ⟨.DIGIT, "2", 4⟩] 10 false
          0).bounded 3
      ∧ (eat [⟨.DIGIT, "1", 0⟩, ⟨.PLUS, "+", 2⟩, ⟨.DIGIT, "2", 4⟩] [.IDENTIFIER] 3).bounded 3 :=
  ⟨by decide,
    (cursor_bound [⟨.DIGIT, "1", 0⟩, ⟨.PLUS, "+", 2⟩, ⟨.DIGIT, "2", 4⟩] 10).2.2.2.2.1 false 0
      (by decide),
    (cursor_bound [⟨.DIGIT, "1", 0⟩, ⟨.PLUS, "+", 2⟩, ⟨.DIGIT, "2", 4⟩] 10).2.2.1 [.IDENTIFIER]
      3 (by decide)⟩

/-! ### More fuel changes no result -/

theorem settles_refl {α : Type} (r : Result α) : r.settles r :=
  Or.inr rfl

theorem settles_trans {α : Type} {a b c : Result α} (h1 : a.settles b) (h2 : b.settles c) :
    a.settles c := by
  rcases h1 with h | h
  · exact Or.inl h
  · rw [h]; exact h2

theorem settles_bind {α β : Type} {r r2 : Result α} {k k2 : α → Nat → Result β}
    (hr : r.settles r2) (hk : ∀ v q, (k v q).settles (k2 v q)) :
    (r.bind k).settles (r2.bind k2) := by
  rcases hr with h | h
  · rw [h]; exact Or.inl rfl
  · rw [h]
    cases r2 with
    | ok v q => exact hk v q
    | thrown e q => exact Or.inr rfl
    | undefined => exact Or.inr rfl
    | out_of_fuel => exact Or.inl rfl

theorem settles_ite {α : Type} {c : Prop} [Decidable c] {a a2 b b2 : Result α}
    (ha : a.settles a2) (hb : b.settles b2) :
    (if c then a else b).settles (if c then a2 else b2) := by
  by_cases h : c
  · rw [if_pos h, if_pos h]; exact ha
  · rw [if_neg h, if_neg h]; exact hb

theorem settles_le {α : Type} (g : Nat → Result α) (h : ∀ n, (g n).settles (g (n + 1)))
    (n m : Nat) (hnm : n ≤ m) : (g n).settles (g m) := by
  induction m with
  | zero =>
    have : n = 0 := by omega
    subst this
    exact settles_refl _
  | succ m ih =>
    rcases Nat.eq_or_lt_of_le hnm with e | e
    · rw [e]; exact settles_refl _
    · exact settles_trans (ih (by omega)) (h m)

/-- One more unit of fuel changes no result of the parser that was not out
of fuel. -/
theorem parser_mono (tokens : List Token) (fuel : Nat) :
    (∀ ig p, (parse_expression tokens fuel ig p).settles (parse_expression tokens (fuel + 1) ig p))
    ∧ (∀ p, (parse_if tokens fuel p).settles (parse_if tokens (fuel + 1) p))
    ∧ (∀ p, (parse_object tokens fuel p).settles (parse_object tokens (fuel + 1) p))
    ∧ (∀ l p, (parse_object_loop tokens fuel l p).settles (parse_object_loop tokens (fuel + 1) l p))
    ∧ (∀ p, (parse_array tokens fuel p).settles (parse_array tokens (fuel + 1) p))
    ∧ (∀ l p, (parse_array_loop tokens fuel l p).settles (parse_array_loop tokens (fuel + 1) l p))
    ∧ (∀ e s ig p, (subparse tokens fuel e s ig p).settles (subparse tokens (fuel + 1) e s ig p))
    ∧ (∀ p, (parse_while tokens fuel p).settles (parse_while tokens (fuel + 1) p))
    ∧ (∀ p, (parse_binary tokens fuel p).settles (parse_binary tokens (fuel + 1) p))
    ∧ (∀ l p, (parse_binary_loop tokens fuel l p).settles (parse_binary_loop tokens (fuel + 1) l p))
    ∧ (∀ p, (headterm tokens fuel p).settles (headterm tokens (fuel + 1) p))
    ∧ (∀ l p, (headterm_loop tokens fuel l p).settles (headterm_loop tokens (fuel + 1) l p))
    ∧ (∀ p, (term tokens fuel p).settles (term tokens (fuel + 1) p))
    ∧ (∀ l p, (term_loop tokens fuel l p).settles (term_loop tokens (fuel + 1) l p))
    ∧ (∀ p, (subterm tokens fuel p).settles (subterm tokens (fuel + 1) p))
    ∧ (∀ l p, (subterm_loop tokens fuel l p).settles (subterm_loop tokens (fuel + 1) l p))
    ∧ (∀ p, (parse_typedef tokens fuel p).settles (parse_typedef tokens (fuel + 1) p))
    ∧ (∀ p, (parse_unary tokens fuel p).settles (parse_unary tokens (fuel + 1) p))
    ∧ (∀ e p, (parse_call tokens fuel e p).settles (parse_call tokens (fuel + 1) e p))
    ∧ (∀ l p, (parse_call_loop tokens fuel l p).settles (parse_call_loop tokens (fuel + 1) l p))
    ∧ (∀ e p, (parse_indexation tokens fuel e p).settles (parse_indexation tokens (fuel + 1) e p))
    ∧ (∀ p, (parse_parenthisized tokens fuel p).settles (parse_parenthisized tokens (fuel + 1) p))
    ∧ (∀ p, (parse_function tokens fuel p).settles (parse_function tokens (fuel + 1) p))
    ∧ (∀ l p, (parse_function_loop tokens fuel l p).settles (parse_function_loop tokens (fuel + 1) l p))
    ∧ (∀ p, (parse_block tokens fuel p).settles (parse_block tokens (fuel + 1) p))
    ∧ (∀ l p, (parse_block_loop tokens fuel l p).settles (parse_block_loop tokens (fuel + 1) l p))
    ∧ (∀ p, (parse_identifier tokens fuel p).settles (parse_identifier tokens (fuel + 1) p)) := by
  induction fuel with
  | zero =>
    simp only [parse_expression, parse_if, parse_object, parse_object_loop, parse_array,
      parse_array_loop, subparse, parse_while, parse_binary, parse_binary_loop, headterm,
      headterm_loop, term, term_loop, subterm, subterm_loop, parse_typedef, parse_unary,
      parse_call, parse_call_loop, parse_indexation, parse_parenthisized, parse_function,
      parse_function_loop, parse_block, parse_block_loop, parse_identifier, Result.settles,
      true_or, implies_true, and_self]
  | succ fuel ih =>
    obtain ⟨i1, i2, i3, i4, i5, i6, i7, i8, i9, i10, i11, i12, i13, i14, i15, i16, i17, i18,
      i19, i20, i21, i22, i23, i24, i25, i26, i27⟩ := ih
    refine ⟨?_, ?_, ?_, ?_, ?_, ?_, ?_, ?_, ?_, ?_, ?_, ?_, ?_, ?_, ?_, ?_, ?_, ?_, ?_, ?_, ?_,
      ?_, ?_, ?_, ?_, ?_, ?_⟩
    · intro ig p
      simp only [parse_expression]
      repeat' first
        | with_reducible exact settles_refl _
        | with_reducible refine settles_ite ?_ ?_
        | with_reducible refine settles_bind ?_ (fun _ _ => ?_)
        | with_reducible solve_by_elim
    · intro p
      simp only [parse_if]
      repeat' first
        | with_reducible exact settles_refl _
        | with_reducible refine settles_ite ?_ ?_
        | with_reducible refine settles_bind ?_ (fun _ _ => ?_)
        | with_reducible solve_by_elim
    · intro p
      simp only [parse_object]
      repeat' first
        | with_reducible exact settles_refl _
        | with_reducible refine settles_ite ?_ ?_
        | with_reducible refine settles_bind ?_ (fun _ _ => ?_)
        | with_reducible solve_by_elim
    · intro l p
      simp only [parse_object_loop]
      repeat' first
        | with_reducible exact settles_refl _
        | with_reducible refine settles_ite ?_ ?_
        | with_reducible refine settles_bind ?_ (fun _ _ => ?_)
        | with_reducible solve_by_elim
    · intro p
      simp only [parse_array]
      repeat' first
        | with_reducible exact settles_refl _
        | with_reducible refine settles_ite ?_ ?_
        | with_reducible refine settles_bind ?_ (fun _ _ => ?_)
        | with_reducible solve_by_elim
    · intro l p
      simp only [parse_array_loop]
      repeat' first
        | with_reducible exact settles_refl _
        | with_reducible refine settles_ite ?_ ?_
        | with_reducible refine settles_bind ?_ (fun _ _ => ?_)
        | with_reducible solve_by_elim
    · intro e s ig p
      simp only [subparse]
      repeat' first
        | with_reducible exact settles_refl _
        | with_reducible refine settles_ite ?_ ?_
        | with_reducible refine settles_bind ?_ (fun _ _ => ?_)
        | with_reducible solve_by_elim
    · intro p
      simp only [parse_while]
      repeat' first
        | with_reducible exact settles_refl _
        | with_reducible refine settles_ite ?_ ?_
        | with_reducible refine settles_bind ?_ (fun _ _ => ?_)
        | with_reducible solve_by_elim
    · intro p
      simp only [parse_binary]
      repeat' first
        | with_reducible exact settles_refl _
        | with_reducible refine settles_ite ?_ ?_
        | with_reducible refine settles_bind ?_ (fun _ _ => ?_)
        | with_reducible solve_by_elim
    · intro l p
      cases hop : tokens[p]? with
      | none =>
        rw [parse_binary_loop_stop fuel _ (is_token_none _ hop), parse_binary_loop_stop (fuel + 1) _ (is_token_none _ hop)]
        exact settles_refl _
      | some op =>
        by_cases ht : is_token tokens
            [.AND, .OR] p = true
        · rw [parse_binary_loop_step fuel _ hop ht, parse_binary_loop_step (fuel + 1) _ hop ht]
          exact settles_bind (i11 _) (fun _ _ => i10 _ _)
        · rw [parse_binary_loop_stop fuel _ (by simpa using ht),
            parse_binary_loop_stop (fuel + 1) _ (by simpa using ht)]
          exact settles_refl _
    · intro p
      simp only [headterm]
      repeat' first
        | with_reducible exact settles_refl _
        | with_reducible refine settles_ite ?_ ?_
        | with_reducible refine settles_bind ?_ (fun _ _ => ?_)
        | with_reducible solve_by_elim
    · intro l p
      cases hop : tokens[p]? with
      | none =>
        rw [headterm_loop_stop fuel _ (is_token_none _ hop), headterm_loop_stop (fuel + 1) _ (is_token_none _ hop)]
        exact settles_refl _
      | some op =>
        by_cases ht : is_token tokens
            [.ASSIGN, .EQ, .NOTEQ, .BIGGER, .SMALLER, .BIGGER_OR_EQ, .SMALLER_OR_EQ] p = true
        · rw [headterm_loop_step fuel _ hop ht, headterm_loop_step (fuel + 1) _ hop ht]
          exact settles_bind (i13 _) (fun _ _ => i12 _ _)
        · rw [headterm_loop_stop fuel _ (by simpa using ht),
            headterm_loop_stop (fuel + 1) _ (by simpa using ht)]
          exact settles_refl _
    · intro p
      simp only [term]
      repeat' first
        | with_reducible exact settles_refl _
        | with_reducible refine settles_ite ?_ ?_
        | with_reducible refine settles_bind ?_ (fun _ _ => ?_)
        | with_reducible solve_by_elim
    · intro l p
      cases hop : tokens[p]? with
      | none =>
        rw [term_loop_stop fuel _ (is_token_none _ hop), term_loop_stop (fuel + 1) _ (is_token_none _ hop)]
        exact settles_refl _
      | some op =>
        by_cases ht : is_token tokens
            [.PLUS, .MINUS] p = true
        · rw [term_loop_step fuel _ hop ht, term_loop_step (fuel + 1) _ hop ht]
          exact settles_bind (i15 _) (fun _ _ => i14 _ _)
        · rw [term_loop_stop fuel _ (by simpa using ht),
            term_loop_stop (fuel + 1) _ (by simpa using ht)]
          exact settles_refl _
    · intro p
      simp only [subterm]
      repeat' first
        | with_reducible exact settles_refl _
        | with_reducible refine settles_ite ?_ ?_
        | with_reducible refine settles_bind ?_ (fun _ _ => ?_)
        | with_reducible solve_by_elim
    · intro l p
      cases hop : tokens[p]? with
      | none =>
        rw [subterm_loop_stop fuel _ (is_token_none _ hop), subterm_loop_stop (fuel + 1) _ (is_token_none _ hop)]
        exact settles_refl _
      | some op =>
        by_cases ht : is_token tokens
            [.ASTERISK, .SLASH] p = true
        · rw [subterm_loop_step fuel _ hop ht, subterm_loop_step (fuel + 1) _ hop ht]
          exact settles_bind (i1 _ _) (fun _ _ => i16 _ _)
        · rw [subterm_loop_stop fuel _ (by simpa using ht),
            subterm_loop_stop (fuel + 1) _ (by simpa using ht)]
          exact settles_refl _
    · intro p
      simp only [parse_typedef]
      repeat' first
        | with_reducible exact settles_refl _
        | with_reducible refine settles_ite ?_ ?_
        | with_reducible refine settles_bind ?_ (fun _ _ => ?_)
        | with_reducible solve_by_elim
    · intro p
      simp only [parse_unary]
      repeat' first
        | with_reducible exact settles_refl _
        | with_reducible refine settles_ite ?_ ?_
        | with_reducible refine settles_bind ?_ (fun _ _ => ?_)
        | with_reducible solve_by_elim
    · intro e p
      simp only [parse_call]
      repeat' first
        | with_reducible exact settles_refl _
        | with_reducible refine settles_ite ?_ ?_
        | with_reducible refine settles_bind ?_ (fun _ _ => ?_)
        | with_reducible solve_by_elim
    · intro l p
      simp only [parse_call_loop]
      repeat' first
        | with_reducible exact settles_refl _
        | with_reducible refine settles_ite ?_ ?_
        | with_reducible refine settles_bind ?_ (fun _ _ => ?_)
        | with_reducible solve_by_elim
    · intro e p
      simp only [parse_indexation]
      repeat' first
        | with_reducible exact settles_refl _
        | with_reducible refine settles_ite ?_ ?_
        | with_reducible refine settles_bind ?_ (fun _ _ => ?_)
        | with_reducible solve_by_elim
    · intro p
      simp only [parse_parenthisized]
      repeat' first
        | with_reducible exact settles_refl _
        | with_reducible refine settles_ite ?_ ?_
        | with_reducible refine settles_bind ?_ (fun _ _ => ?_)
        | with_reducible solve_by_elim
    · intro p
      simp only [parse_function]
      repeat' first
        | with_reducible exact settles_refl _
        | with_reducible refine settles_ite ?_ ?_
        | with_reducible refine settles_bind ?_ (fun _ _ => ?_)
        | with_reducible solve_by_elim
    · intro l p
      simp only [parse_function_loop]
      repeat' first
        | with_reducible exact settles_refl _
        | with_reducible refine settles_ite ?_ ?_
        | with_reducible refine settles_bind ?_ (fun _ _ => ?_)
        | with_reducible solve_by_elim
    · intro p
      simp only [parse_block]
      repeat' first
        | with_reducible exact settles_refl _
        | with_reducible refine settles_ite ?_ ?_
        | with_reducible refine settles_bind ?_ (fun _ _ => ?_)
        | with_reducible solve_by_elim
    · intro l p
      simp only [parse_block_loop]
      repeat' first
        | with_reducible exact settles_refl _
        | with_reducible refine settles_ite ?_ ?_
        | with_reducible refine settles_bind ?_ (fun _ _ => ?_)
        | with_reducible solve_by_elim
    · intro p
      simp only [parse_identifier]
      repeat' first
        | with_reducible exact settles_refl _
        | with_reducible refine settles_ite ?_ ?_
        | with_reducible refine settles_bind ?_ (fun _ _ => ?_)
        | with_reducible solve_by_elim

/-! ### The cursor moves forward -/

theorem reaches_bind {α β : Type} {b : Nat} {r : Result α} {k : α → Nat → Result β}
    (hr : r.reaches b) (hk : ∀ v q, b ≤ q → (k v q).reaches b) : (r.bind k).reaches b := by
  cases r with
  | ok v q => exact hk v q hr
  | thrown e q => trivial
  | undefined => trivial
  | out_of_fuel => trivial

theorem reaches_ite {α : Type} {b : Nat} {c : Prop} [Decidable c] {x y : Result α}
    (hx : x.reaches b) (hy : y.reaches b) : (if c then x else y).reaches b := by
  by_cases h : c
  · rw [if_pos h]; exact hx
  · rw [if_neg h]; exact hy

theorem reaches_mono {α : Type} {b c : Nat} {r : Result α} (hbc : b ≤ c) (hr : r.reaches c) :
    r.reaches b := by
  cases r with
  | ok v q => exact Nat.le_trans hbc hr
  | thrown e q => trivial
  | undefined => trivial
  | out_of_fuel => trivial

theorem eat_reaches (tokens : List Token) (types : List TokenType) (p : Nat) :
    (eat tokens types p).reaches (p + 1) := by
  cases h : tokens[p]? with
  | none => simp [eat, h, Result.reaches]
  | some t =>
    by_cases hmem : t.type ∈ types
    · rw [eat_mem h hmem]; exact Nat.le_refl _
    · rw [eat_not_mem h hmem]; trivial

theorem parse_literal_reaches (tokens : List Token) (p : Nat) :
    (parse_literal tokens p).reaches (p + 1) := by
  unfold parse_literal
  exact reaches_bind (eat_reaches tokens _ p) (fun _ _ hq => hq)

theorem match_ge (tokens : List Token) (types : List TokenType) (p : Nat) :
    p ≤ (match_ tokens types p).2 := by
  simp only [match_]
  by_cases h : is_token tokens types p = true
  · rw [if_pos h]; exact Nat.le_succ p
  · rw [if_neg h]

/-- Every function of the parser that returns has moved the cursor forward: by
at least one token, the loops by none or more, and `subparse` to beyond the
start it may rewind to. -/
theorem parser_progress (tokens : List Token) (fuel : Nat) :
    (∀ ig p, (parse_expression tokens fuel ig p).reaches (p + 1))
    ∧ (∀ p, (parse_if tokens fuel p).reaches (p + 1))
    ∧ (∀ p, (parse_object tokens fuel p).reaches (p + 1))
    ∧ (∀ l p, (parse_object_loop tokens fuel l p).reaches p)
    ∧ (∀ p, (parse_array tokens fuel p).reaches (p + 1))
    ∧ (∀ l p, (parse_array_loop tokens fuel l p).reaches p)
    ∧ (∀ e s ig p, s < p → (subparse tokens fuel e s ig p).reaches (s + 1))
    ∧ (∀ p, (parse_while tokens fuel p).reaches (p + 1))
    ∧ (∀ p, (parse_binary tokens fuel p).reaches (p + 1))
    ∧ (∀ l p, (parse_binary_loop tokens fuel l p).reaches p)
    ∧ (∀ p, (headterm tokens fuel p).reaches (p + 1))
    ∧ (∀ l p, (headterm_loop tokens fuel l p).reaches p)
    ∧ (∀ p, (term tokens fuel p).reaches (p + 1))
    ∧ (∀ l p, (term_loop tokens fuel l p).reaches p)
    ∧ (∀ p, (subterm tokens fuel p).reaches (p + 1))
    ∧ (∀ l p, (subterm_loop tokens fuel l p).reaches p)
    ∧ (∀ p, (parse_typedef tokens fuel p).reaches (p + 1))
    ∧ (∀ p, (parse_unary tokens fuel p).reaches (p + 1))
    ∧ (∀ e p, (parse_call tokens fuel e p).reaches (p + 1))
    ∧ (∀ l p, (parse_call_loop tokens fuel l p).reaches p)
    ∧ (∀ e p, (parse_indexation tokens fuel e p).reaches (p + 1))
    ∧ (∀ p, (parse_parenthisized tokens fuel p).reaches (p + 1))
    ∧ (∀ p, (parse_function tokens fuel p).reaches (p + 1))
    ∧ (∀ l p, (parse_function_loop tokens fuel l p).reaches p)
    ∧ (∀ p, (parse_block tokens fuel p).reaches (p + 1))
    ∧ (∀ l p, (parse_block_loop tokens fuel l p).reaches p)
    ∧ (∀ p, (parse_identifier tokens fuel p).reaches (p + 1)) := by
  induction fuel with
  | zero =>
    simp only [parse_expression, parse_if, parse_object, parse_object_loop, parse_array,
      parse_array_loop, subparse, parse_while, parse_binary, parse_binary_loop, headterm,
      headterm_loop, term, term_loop, subterm, subterm_loop, parse_typedef, parse_unary,
      parse_call, parse_call_loop, parse_indexation, parse_parenthisized, parse_function,
      parse_function_loop, parse_block, parse_block_loop, parse_identifier, Result.reaches,
      implies_true, and_self]
  | succ fuel ih =>
    obtain ⟨i1, i2, i3, i4, i5, i6, i7, i8, i9, i10, i11, i12, i13, i14, i15, i16, i17, i18,
      i19, i20, i21, i22, i23, i24, i25, i26, i27⟩ := ih
    have he := eat_reaches tokens
    have hl := parse_literal_reaches tokens
    have hmg := match_ge tokens
    refine ⟨?_, ?_, ?_, ?_, ?_, ?_, ?_, ?_, ?_, ?_, ?_, ?_, ?_, ?_, ?_, ?_, ?_, ?_, ?_, ?_, ?_,
      ?_, ?_, ?_, ?_, ?_, ?_⟩
    · intro ig p
      simp only [parse_expression]
      repeat' first
        | with_reducible refine reaches_ite ?_ ?_
        | with_reducible refine reaches_bind ?_ (fun _ _ _ => ?_)
        | (simp only [Result.reaches]; done)
        | with_reducible exact reaches_mono (by omega) (hl _)
        | with_reducible exact reaches_mono (by omega) (i23 _)
        | with_reducible exact reaches_mono (by omega) (i27 _)
        | with_reducible exact reaches_mono (by omega) (i22 _)
        | with_reducible exact reaches_mono (by omega) (i18 _)
        | with_reducible exact reaches_mono (by omega) (i5 _)
        | with_reducible exact reaches_mono (by omega) (i3 _)
        | with_reducible exact reaches_mono (by omega) (i8 _)
        | with_reducible exact reaches_mono (by omega) (i17 _)
        | with_reducible exact reaches_mono (by omega) (i2 _)
        | with_reducible exact reaches_mono (by omega) (i7 _ _ _ _ (by omega))
    · intro p
      simp only [parse_if]
      repeat' first
        | with_reducible refine reaches_ite ?_ ?_
        | with_reducible refine reaches_bind ?_ (fun _ _ _ => ?_)
        | (simp only [Result.reaches]; omega)
        | with_reducible exact reaches_mono (by omega) (he _ _)
        | with_reducible exact reaches_mono (by omega) (i1 _ _)
        | with_reducible exact reaches_mono (by omega) (i25 _)
    · intro p
      simp only [parse_object]
      repeat' first
        | with_reducible refine reaches_ite ?_ ?_
        | with_reducible refine reaches_bind ?_ (fun _ _ _ => ?_)
        | (simp only [Result.reaches]; omega)
        | with_reducible exact reaches_mono (by omega) (he _ _)
        | with_reducible exact reaches_mono (by omega) (i4 _ _)
    · intro l p
      simp only [parse_object_loop]
      repeat' first
        | with_reducible refine reaches_ite ?_ ?_
        | with_reducible refine reaches_bind ?_ (fun _ _ _ => ?_)
        | (simp only [Result.reaches]; omega)
        | with_reducible exact reaches_mono (by omega) (i1 _ _)
        | with_reducible exact reaches_mono (Nat.le_trans (by omega) (hmg _ _)) (i4 _ _)
    · intro p
      simp only [parse_array]
      repeat' first
        | with_reducible refine reaches_ite ?_ ?_
        | with_reducible refine reaches_bind ?_ (fun _ _ _ => ?_)
        | (simp only [Result.reaches]; omega)
        | with_reducible exact reaches_mono (by omega) (he _ _)
        | with_reducible exact reaches_mono (by omega) (i6 _ _)
    · intro l p
      simp only [parse_array_loop]
      repeat' first
        | with_reducible refine reaches_ite ?_ ?_
        | with_reducible refine reaches_bind ?_ (fun _ _ _ => ?_)
        | (simp only [Result.reaches]; omega)
        | with_reducible exact reaches_mono (by omega) (i1 _ _)
        | with_reducible exact reaches_mono (Nat.le_trans (by omega) (hmg _ _)) (i6 _ _)
    · intro e s ig p hs
      simp only [subparse]
      repeat' first
        | with_reducible refine reaches_ite ?_ ?_
        | with_reducible refine reaches_bind ?_ (fun _ _ _ => ?_)
        | (simp only [Result.reaches]; omega)
        | with_reducible exact reaches_mono (by omega) (i19 _ _)
        | with_reducible exact reaches_mono (by omega) (i21 _ _)
        | with_reducible exact reaches_mono (by omega) (i9 _)
        | with_reducible exact reaches_mono (by omega) (i7 _ _ _ _ (by omega))
    · intro p
      simp only [parse_while]
      repeat' first
        | with_reducible refine reaches_ite ?_ ?_
        | with_reducible refine reaches_bind ?_ (fun _ _ _ => ?_)
        | (simp only [Result.reaches]; omega)
        | with_reducible exact reaches_mono (by omega) (he _ _)
        | with_reducible exact reaches_mono (by omega) (i1 _ _)
        | with_reducible exact reaches_mono (by omega) (i25 _)
    · intro p
      simp only [parse_binary]
      repeat' first
        | with_reducible refine reaches_ite ?_ ?_
        | with_reducible refine reaches_bind ?_ (fun _ _ _ => ?_)
        | (simp only [Result.reaches]; omega)
        | with_reducible exact reaches_mono (by omega) (i11 _)
        | with_reducible exact reaches_mono (by omega) (i10 _ _)
    · intro l p
      cases hop : tokens[p]? with
      | none => rw [parse_binary_loop_stop fuel _ (is_token_none _ hop)]; exact Nat.le_refl p
      | some op =>
        by_cases ht : is_token tokens
            [.AND, .OR] p = true
        · rw [parse_binary_loop_step fuel _ hop ht]
          exact reaches_bind (reaches_mono (Nat.le_succ_of_le (Nat.le_succ p)) (i11 _))
            (fun _ _ hq => reaches_mono hq (i10 _ _))
        · rw [parse_binary_loop_stop fuel _ (by simpa using ht)]; exact Nat.le_refl p
    · intro p
      simp only [headterm]
      repeat' first
        | with_reducible refine reaches_ite ?_ ?_
        | with_reducible refine reaches_bind ?_ (fun _ _ _ => ?_)
        | (simp only [Result.reaches]; omega)
        | with_reducible exact reaches_mono (by omega) (i13 _)
        | with_reducible exact reaches_mono (by omega) (i12 _ _)
    · intro l p
      cases hop : tokens[p]? with
      | none => rw [headterm_loop_stop fuel _ (is_token_none _ hop)]; exact Nat.le_refl p
      | some op =>
        by_cases ht : is_token tokens
            [.ASSIGN, .EQ, .NOTEQ, .BIGGER, .SMALLER, .BIGGER_OR_EQ, .SMALLER_OR_EQ] p = true
        · rw [headterm_loop_step fuel _ hop ht]
          exact reaches_bind (reaches_mono (Nat.le_succ_of_le (Nat.le_succ p)) (i13 _))
            (fun _ _ hq => reaches_mono hq (i12 _ _))
        · rw [headterm_loop_stop fuel _ (by simpa using ht)]; exact Nat.le_refl p
    · intro p
      simp only [term]
      repeat' first
        | with_reducible refine reaches_ite ?_ ?_
        | with_reducible refine reaches_bind ?_ (fun _ _ _ => ?_)
        | (simp only [Result.reaches]; omega)
        | with_reducible exact reaches_mono (by omega) (i15 _)
        | with_reducible exact reaches_mono (by omega) (i14 _ _)
    · intro l p
      cases hop : tokens[p]? with
      | none => rw [term_loop_stop fuel _ (is_token_none _ hop)]; exact Nat.le_refl p
      | some op =>
        by_cases ht : is_token tokens
            [.PLUS, .MINUS] p = true
        · rw [term_loop_step fuel _ hop ht]
          exact reaches_bind (reaches_mono (Nat.le_succ_of_le (Nat.le_succ p)) (i15 _))
            (fun _ _ hq => reaches_mono hq (i14 _ _))
        · rw [term_loop_stop fuel _ (by simpa using ht)]; exact Nat.le_refl p
    · intro p
      simp only [subterm]
      repeat' first
        | with_reducible refine reaches_ite ?_ ?_
        | with_reducible refine reaches_bind ?_ (fun _ _ _ => ?_)
        | (simp only [Result.reaches]; omega)
        | with_reducible exact reaches_mono (by omega) (i1 _ _)
        | with_reducible exact reaches_mono (by omega) (i16 _ _)
    · intro l p
      cases hop : tokens[p]? with
      | none => rw [subterm_loop_stop fuel _ (is_token_none _ hop)]; exact Nat.le_refl p
      | some op =>
        by_cases ht : is_token tokens
            [.ASTERISK, .SLASH] p = true
        · rw [subterm_loop_step fuel _ hop ht]
          exact reaches_bind (reaches_mono (Nat.le_succ_of_le (Nat.le_succ p)) (i1 _ _))
            (fun _ _ hq => reaches_mono hq (i16 _ _))
        · rw [subterm_loop_stop fuel _ (by simpa using ht)]; exact Nat.le_refl p
    · intro p
      simp only [parse_typedef]
      repeat' first
        | with_reducible refine reaches_ite ?_ ?_
        | with_reducible refine reaches_bind ?_ (fun _ _ _ => ?_)
        | (simp only [Result.reaches]; omega)
        | with_reducible exact reaches_mono (by omega) (he _ _)
        | with_reducible exact reaches_mono (by omega) (i27 _)
        | with_reducible exact reaches_mono (by omega) (i1 _ _)
    · intro p
      simp only [parse_unary]
      repeat' first
        | with_reducible refine reaches_ite ?_ ?_
        | with_reducible refine reaches_bind ?_ (fun _ _ _ => ?_)
        | (simp only [Result.reaches]; omega)
        | with_reducible exact reaches_mono (by omega) (he _ _)
        | with_reducible exact reaches_mono (by omega) (i1 _ _)
    · intro e p
      simp only [parse_call]
      repeat' first
        | with_reducible refine reaches_ite ?_ ?_
        | with_reducible refine reaches_bind ?_ (fun _ _ _ => ?_)
        | (simp only [Result.reaches]; omega)
        | with_reducible exact reaches_mono (by omega) (he _ _)
        | with_reducible exact reaches_mono (by omega) (i20 _ _)
    · intro l p
      simp only [parse_call_loop]
      repeat' first
        | with_reducible refine reaches_ite ?_ ?_
        | with_reducible refine reaches_bind ?_ (fun _ _ _ => ?_)
        | (simp only [Result.reaches]; omega)
        | with_reducible exact reaches_mono (by omega) (i1 _ _)
        | with_reducible exact reaches_mono (Nat.le_trans (by omega) (hmg _ _)) (i20 _ _)
    · intro e p
      simp only [parse_indexation]
      repeat' first
        | with_reducible refine reaches_ite ?_ ?_
        | with_reducible refine reaches_bind ?_ (fun _ _ _ => ?_)
        | (simp only [Result.reaches]; omega)
        | with_reducible exact reaches_mono (by omega) (he _ _)
        | with_reducible exact reaches_mono (by omega) (i1 _ _)
    · intro p
      simp only [parse_parenthisized]
      repeat' first
        | with_reducible refine reaches_ite ?_ ?_
        | with_reducible refine reaches_bind ?_ (fun _ _ _ => ?_)
        | (simp only [Result.reaches]; omega)
        | with_reducible exact reaches_mono (by omega) (he _ _)
        | with_reducible exact reaches_mono (by omega) (i1 _ _)
    · intro p
      simp only [parse_function]
      repeat' first
        | with_reducible refine reaches_ite ?_ ?_
        | with_reducible refine reaches_bind ?_ (fun _ _ _ => ?_)
        | (simp only [Result.reaches]; omega)
        | with_reducible exact reaches_mono (by omega) (he _ _)
        | with_reducible exact reaches_mono (by omega) (i27 _)
        | with_reducible exact reaches_mono (by omega) (i24 _ _)
        | with_reducible exact reaches_mono (by omega) (i1 _ _)
        | with_reducible exact reaches_mono (by omega) (i25 _)
    · intro l p
      simp only [parse_function_loop]
      repeat' first
        | with_reducible refine reaches_ite ?_ ?_
        | with_reducible refine reaches_bind ?_ (fun _ _ _ => ?_)
        | (simp only [Result.reaches]; omega)
        | with_reducible exact reaches_mono (by omega) (i27 _)
        | with_reducible exact reaches_mono (Nat.le_trans (by omega) (hmg _ _)) (i24 _ _)
    · intro p
      simp only [parse_block]
      repeat' first
        | with_reducible refine reaches_ite ?_ ?_
        | with_reducible refine reaches_bind ?_ (fun _ _ _ => ?_)
        | (simp only [Result.reaches]; omega)
        | with_reducible exact reaches_mono (by omega) (he _ _)
        | with_reducible exact reaches_mono (by omega) (i26 _ _)
    · intro l p
      simp only [parse_block_loop]
      repeat' first
        | with_reducible refine reaches_ite ?_ ?_
        | with_reducible refine reaches_bind ?_ (fun _ _ _ => ?_)
        | (simp only [Result.reaches]; omega)
        | with_reducible exact reaches_mono (by omega) (i1 _ _)
        | with_reducible exact reaches_mono (Nat.le_trans (by omega) (hmg _ _)) (i26 _ _)
    · intro p
      simp only [parse_identifier]
      repeat' first
        | with_reducible refine reaches_ite ?_ ?_
        | with_reducible refine reaches_bind ?_ (fun _ _ _ => ?_)
        | (simp only [Result.reaches]; omega)
        | with_reducible exact reaches_mono (by omega) (he _ _)
        | with_reducible exact reaches_mono (by omega) (i1 _ _)

theorem parse_expression_advances (tokens : List Token) (fuel : Nat) (ig : Bool) (p : Nat)
    (e : AstNode) (q : Nat) (h : parse_expression tokens fuel ig p = .ok e q) : p < q := by
  have hr := (parser_progress tokens fuel).1 ig p
  rw [h] at hr
  exact hr

theorem make_ast_loop_count (tokens : List Token) (fuel : Nat) :
    ∀ (nodes : List AstNode) (p : Nat) (result : List AstNode) (q : Nat),
      p ≤ tokens.length → make_ast_loop tokens fuel nodes p = .ok result q →
      result.length + p ≤ nodes.length + tokens.length := by
  induction fuel with
  | zero => intro nodes p result q _ h; simp [make_ast_loop] at h
  | succ fuel ih =>
    intro nodes p result q hp h
    simp only [make_ast_loop] at h
    by_cases hlt : p < tokens.length
    · rw [if_pos hlt] at h
      obtain ⟨e, q1, h1, h2⟩ := bind_eq_ok h
      have hadv := parse_expression_advances tokens fuel _ p e q1 h1
      have hb := (parser_bounded tokens fuel).1 default_ignore_binaries p hp
      rw [h1] at hb
      have hb2 := match_bounded tokens [.SEMICOLON] q1 hb
      have hge := match_ge tokens [.SEMICOLON] q1
      have := ih _ _ _ _ hb2 h2
      simp only [List.length_append, List.length_singleton] at this
      omega
    · rw [if_neg hlt] at h
      injection h with h1 h2
      subst h1
      omega

/-- In the runs that return: when `parse_expression` returns, with either
flag, the cursor is strictly beyond where it started, the rewind of `subparse`
notwithstanding; the statements the loop of `make_ast` collects from a cursor
`p` on are at most the tokens from `p` on, and the block `make_ast` returns has
at most as many statements as there are tokens. -/
theorem parse_progress (tokens : List Token) (fuel : Nat) :
    (∀ ig p e q, parse_expression tokens fuel ig p = .ok e q → p < q)
      ∧ (∀ nodes p result q, p ≤ tokens.length →
          make_ast_loop tokens fuel nodes p = .ok result q →
          result.length + p ≤ nodes.length + tokens.length)
      ∧ (∀ nodes q, make_ast tokens fuel = .ok (.BlockNode nodes) q →
          nodes.length ≤ tokens.length) := by
  refine ⟨parse_expression_advances tokens fuel, make_ast_loop_count tokens fuel, ?_⟩
  intro nodes q h
  unfold make_ast at h
  obtain ⟨result, q1, h1, h2⟩ := bind_eq_ok h
  have := make_ast_loop_count tokens fuel [] 0 result q1 (Nat.zero_le _) h1
  simp only [Result.ok.injEq, AstNode.BlockNode.injEq] at h2
  obtain ⟨h3, -⟩ := h2
  subst h3
  simpa using this

/-! ### The top level -/

theorem make_ast_bounded (tokens : List Token) (fuel : Nat) :
    (make_ast tokens fuel).bounded tokens.length := by
  unfold make_ast
  exact bounded_bind (make_ast_loop_bounded tokens fuel [] 0 (Nat.zero_le _))
    (fun _ _ hq => hq)

theorem make_ast_loop_statements (tokens : List Token) (fuel : Nat) :
    ∀ (nodes : List AstNode) (p : Nat) (result : List AstNode) (q : Nat),
      make_ast_loop tokens fuel nodes p = .ok result q →
      tokens.length ≤ q ∧ ∃ rest, result = nodes ++ rest ∧ Statements tokens p rest := by
  induction fuel with
  | zero => intro nodes p result q h; simp [make_ast_loop] at h
  | succ fuel ih =>
    intro nodes p result q h
    simp only [make_ast_loop] at h
    by_cases hlt : p < tokens.length
    · rw [if_pos hlt] at h
      obtain ⟨e, q1, h1, h2⟩ := bind_eq_ok h
      obtain ⟨hq, rest, hrest, hst⟩ := ih _ _ _ _ h2
      refine ⟨hq, e :: rest, ?_, Statements.step p fuel e q1 rest hlt h1 hst⟩
      rw [hrest, List.append_assoc, List.singleton_append]
    · rw [if_neg hlt] at h
      injection h with h1 h2
      subst h1 h2
      exact ⟨Nat.le_of_not_lt hlt, [], (List.append_nil _).symm,
        Statements.done _ (Nat.le_of_not_lt hlt)⟩

/-- C14. When `make_ast` returns, the cursor is at the number of tokens and the
result is a `Block` whose statements are, in order, the results of the calls
`parse_expression(false)` made one after the other from the cursor 0, each
followed by `match({SEMICOLON})`, which consumes one `;` when there is one. On
no tokens at all it returns the empty `Block`. -/
theorem make_ast_consumes_all (tokens : List Token) (fuel : Nat) (node : AstNode) (q : Nat)
    (h : make_ast tokens fuel = .ok node q) :
    q = tokens.length
      ∧ (∃ nodes, node = .BlockNode nodes ∧ Statements tokens 0 nodes)
      ∧ make_ast [] (fuel + 1) = .ok (.BlockNode []) 0 := by
  have hb := (make_ast_bounded tokens fuel)
  rw [h] at hb
  unfold make_ast at h
  obtain ⟨result, q1, h1, h2⟩ := bind_eq_ok h
  obtain ⟨hq, rest, hrest, hst⟩ := make_ast_loop_statements tokens fuel [] 0 result q1 h1
  simp only [Result.ok.injEq] at h2
  obtain ⟨h3, h4⟩ := h2
  subst h3 h4
  refine ⟨Nat.le_antisymm hb hq, ⟨rest, ?_, hst⟩, rfl⟩
  rw [hrest, List.nil_append]

theorem make_ast_consumes_all_witness :
    make_ast [⟨.DIGIT, "1", 0⟩, ⟨.SEMICOLON, ";", 1⟩, ⟨.DIGIT, "2", 3⟩] 6
        = .ok (.BlockNode [.LiteralNode ⟨.DIGIT, "1", 0⟩, .LiteralNode ⟨.DIGIT, "2", 3⟩]) 3
      ∧ 3 = [(⟨.DIGIT, "1", 0⟩ : Token), ⟨.SEMICOLON, ";", 1⟩, ⟨.DIGIT, "2", 3⟩].length :=
  ⟨rfl, (make_ast_consumes_all [⟨.DIGIT, "1", 0⟩, ⟨.SEMICOLON, ";", 1⟩, ⟨.DIGIT, "2", 3⟩] 6
    _ 3 rfl).1⟩

/-! ### The rewind of `subparse` and the ladder -/

theorem primary_settles (tokens : List Token) (p : Nat) (n : Nat) :
    (primary tokens n p).settles (primary tokens (n + 1) p) := by
  obtain ⟨-, i2, i3, -, i5, -, -, i8, -, -, -, -, -, -, -, -, i17, i18, -, -, -, i22, i23, -,
    -, -, i27⟩ := parser_mono tokens n
  unfold primary
  repeat' first
    | with_reducible exact settles_refl _
    | with_reducible refine settles_ite ?_ ?_
    | with_reducible solve_by_elim

/-- A result of the parser that is not out of fuel stays the same with more
fuel. -/
theorem more_fuel (tokens : List Token) (n m : Nat) (hnm : n ≤ m) :
    (∀ ig p, (parse_expression tokens n ig p).settles (parse_expression tokens m ig p))
      ∧ (∀ p, (parse_binary tokens n p).settles (parse_binary tokens m p))
      ∧ (∀ e p, (parse_call tokens n e p).settles (parse_call tokens m e p))
      ∧ (∀ e p, (parse_indexation tokens n e p).settles (parse_indexation tokens m e p))
      ∧ (∀ p, (primary tokens n p).settles (primary tokens m p)) := by
  refine ⟨?_, ?_, ?_, ?_, ?_⟩
  · intro ig p
    exact settles_le (fun k => parse_expression tokens k ig p)
      (fun k => (parser_mono tokens k).1 ig p) n m hnm
  · intro p
    exact settles_le (fun k => parse_binary tokens k p)
      (fun k => (parser_mono tokens k).2.2.2.2.2.2.2.2.1 p) n m hnm
  · intro e p
    exact settles_le (fun k => parse_call tokens k e p)
      (fun k => (parser_mono tokens k).2.2.2.2.2.2.2.2.2.2.2.2.2.2.2.2.2.2.1 e p) n m hnm
  · intro e p
    exact settles_le (fun k => parse_indexation tokens k e p)
      (fun k => (parser_mono tokens k).2.2.2.2.2.2.2.2.2.2.2.2.2.2.2.2.2.2.2.2.1 e p) n m hnm
  · intro p
    exact settles_le (fun k => primary tokens k p) (primary_settles tokens p) n m hnm

theorem settles_ok {α : Type} {r r2 : Result α} {v : α} {q : Nat} (h : r.settles r2)
    (hr : r = .ok v q) : r2 = .ok v q := by
  rcases h with h | h
  · rw [hr] at h; cases h
  · rw [← h, hr]

/-- Where the loop of `subterm` returns, the cursor is on no `(`, `[`, `*` or
`/`, if it started on no `(` or `[`. -/
theorem subterm_loop_stops (tokens : List Token) (fuel : Nat) :
    ∀ (left : AstNode) (p : Nat) (node : AstNode) (q : Nat),
      is_token tokens [.LPAREN] p = false → is_token tokens [.LSQPAREN] p = false →
      subterm_loop tokens fuel left p = .ok node q →
      is_token tokens [.LPAREN] q = false ∧ is_token tokens [.LSQPAREN] q = false
        ∧ is_token tokens [.ASTERISK, .SLASH] q = false := by
  induction fuel with
  | zero => intro _ _ _ _ _ _ h; simp [subterm_loop] at h
  | succ fuel ih =>
    intro left p node q h1 h2 h
    cases hop : tokens[p]? with
    | none =>
      rw [subterm_loop_stop fuel _ (is_token_none _ hop)] at h
      injection h with _ hq
      subst hq
      exact ⟨h1, h2, is_token_none _ hop⟩
    | some op =>
      by_cases ht : is_token tokens [.ASTERISK, .SLASH] p = true
      · rw [subterm_loop_step fuel _ hop ht] at h
        obtain ⟨e, q1, he, hrest⟩ := bind_eq_ok h
        obtain ⟨s1, s2, -⟩ := parse_expression_stops tokens fuel true _ e q1 he
        exact ih _ _ _ _ s1 s2 hrest
      · rw [subterm_loop_stop fuel _ (by simpa using ht)] at h
        injection h with _ hq
        subst hq
        exact ⟨h1, h2, by simpa using ht⟩

theorem subterm_stops (tokens : List Token) (fuel : Nat) (p : Nat) (node : AstNode) (q : Nat)
    (h : subterm tokens fuel p = .ok node q) :
    is_token tokens [.LPAREN] q = false ∧ is_token tokens [.LSQPAREN] q = false
      ∧ is_token tokens [.ASTERISK, .SLASH] q = false := by
  cases fuel with
  | zero => simp [subterm] at h
  | succ fuel =>
    rw [subterm] at h
    obtain ⟨e, q1, he, hrest⟩ := bind_eq_ok h
    obtain ⟨s1, s2, -⟩ := parse_expression_stops tokens fuel true _ e q1 he
    exact subterm_loop_stops tokens fuel _ _ _ _ s1 s2 hrest

/-- Where the loop of `term` returns, the cursor is on no `(`, `[`, `*`, `/`,
`+` or `-`, if it started on none of the first four. -/
theorem term_loop_stops (tokens : List Token) (fuel : Nat) :
    ∀ (left : AstNode) (p : Nat) (node : AstNode) (q : Nat),
      (is_token tokens [.LPAREN] p = false ∧ is_token tokens [.LSQPAREN] p = false
        ∧ is_token tokens [.ASTERISK, .SLASH] p = false) →
      term_loop tokens fuel left p = .ok node q →
      (is_token tokens [.LPAREN] q = false ∧ is_token tokens [.LSQPAREN] q = false
        ∧ is_token tokens [.ASTERISK, .SLASH] q = false)
        ∧ is_token tokens [.PLUS, .MINUS] q = false := by
  induction fuel with
  | zero => intro _ _ _ _ _ h; simp [term_loop] at h
  | succ fuel ih =>
    intro left p node q h1 h
    cases hop : tokens[p]? with
    | none =>
      rw [term_loop_stop fuel _ (is_token_none _ hop)] at h
      injection h with _ hq
      subst hq
      exact ⟨h1, is_token_none _ hop⟩
    | some op =>
      by_cases ht : is_token tokens [.PLUS, .MINUS] p = true
      · rw [term_loop_step fuel _ hop ht] at h
        obtain ⟨e, q1, he, hrest⟩ := bind_eq_ok h
        exact ih _ _ _ _ (subterm_stops tokens fuel _ e q1 he) hrest
      · rw [term_loop_stop fuel _ (by simpa using ht)] at h
        injection h with _ hq
        subst hq
        exact ⟨h1, by simpa using ht⟩

theorem term_stops (tokens : List Token) (fuel : Nat) (p : Nat) (node : AstNode) (q : Nat)
    (h : term tokens fuel p = .ok node q) :
    (is_token tokens [.LPAREN] q = false ∧ is_token tokens [.LSQPAREN] q = false
      ∧ is_token tokens [.ASTERISK, .SLASH] q = false)
      ∧ is_token tokens [.PLUS, .MINUS] q = false := by
  cases fuel with
  | zero => simp [term] at h
  | succ fuel =>
    rw [term] at h
    obtain ⟨e, q1, he, hrest⟩ := bind_eq_ok h
    exact term_loop_stops tokens fuel _ _ _ _ (subterm_stops tokens fuel _ e q1 he) hrest

/-- Where the loop of `headterm` returns, the cursor is on no `(`, `[`, `*`,
`/`, `+`, `-` or comparison, if it started on none of the first six. -/
theorem headterm_loop_stops (tokens : List Token) (fuel : Nat) :
    ∀ (left : AstNode) (p : Nat) (node : AstNode) (q : Nat),
      ((is_token tokens [.LPAREN] p = false ∧ is_token tokens [.LSQPAREN] p = false
        ∧ is_token tokens [.ASTERISK, .SLASH] p = false)
        ∧ is_token tokens [.PLUS, .MINUS] p = false) →
      headterm_loop tokens fuel left p = .ok node q →
      ((is_token tokens [.LPAREN] q = false ∧ is_token tokens [.LSQPAREN] q = false
        ∧ is_token tokens [.ASTERISK, .SLASH] q = false)
        ∧ is_token tokens [.PLUS, .MINUS] q = false)
        ∧ is_token tokens
          [.ASSIGN, .EQ, .NOTEQ, .BIGGER, .SMALLER, .BIGGER_OR_EQ, .SMALLER_OR_EQ] q = false := by
  induction fuel with
  | zero => intro _ _ _ _ _ h; simp [headterm_loop] at h
  | succ fuel ih =>
    intro left p node q h1 h
    cases hop : tokens[p]? with
    | none =>
      rw [headterm_loop_stop fuel _ (is_token_none _ hop)] at h
      injection h with _ hq
      subst hq
      exact ⟨h1, is_token_none _ hop⟩
    | some op =>
      by_cases ht : is_token tokens
          [.ASSIGN, .EQ, .NOTEQ, .BIGGER, .SMALLER, .BIGGER_OR_EQ, .SMALLER_OR_EQ] p = true
      · rw [headterm_loop_step fuel _ hop ht] at h
        obtain ⟨e, q1, he, hrest⟩ := bind_eq_ok h
        exact ih _ _ _ _ (term_stops tokens fuel _ e q1 he) hrest
      · rw [headterm_loop_stop fuel _ (by simpa using ht)] at h
        injection h with _ hq
        subst hq
        exact ⟨h1, by simpa using ht⟩

theorem headterm_stops (tokens : List Token) (fuel : Nat) (p : Nat) (node : AstNode) (q : Nat)
    (h : headterm tokens fuel p = .ok node q) :
    ((is_token tokens [.LPAREN] q = false ∧ is_token tokens [.LSQPAREN] q = false
      ∧ is_token tokens [.ASTERISK, .SLASH] q = false)
      ∧ is_token tokens [.PLUS, .MINUS] q = false)
      ∧ is_token tokens
        [.ASSIGN, .EQ, .NOTEQ, .BIGGER, .SMALLER, .BIGGER_OR_EQ, .SMALLER_OR_EQ] q = false := by
  cases fuel with
  | zero => simp [headterm] at h
  | succ fuel =>
    rw [headterm] at h
    obtain ⟨e, q1, he, hrest⟩ := bind_eq_ok h
    exact headterm_loop_stops tokens fuel _ _ _ _ (term_stops tokens fuel _ e q1 he) hrest

theorem parse_binary_loop_stops (tokens : List Token) (fuel : Nat) :
    ∀ (left : AstNode) (p : Nat) (node : AstNode) (q : Nat),
      (((is_token tokens [.LPAREN] p = false ∧ is_token tokens [.LSQPAREN] p = false
        ∧ is_token tokens [.ASTERISK, .SLASH] p = false)
        ∧ is_token tokens [.PLUS, .MINUS] p = false)
        ∧ is_token tokens
          [.ASSIGN, .EQ, .NOTEQ, .BIGGER, .SMALLER, .BIGGER_OR_EQ, .SMALLER_OR_EQ] p = false) →
      parse_binary_loop tokens fuel left p = .ok node q →
      (((is_token tokens [.LPAREN] q = false ∧ is_token tokens [.LSQPAREN] q = false
        ∧ is_token tokens [.ASTERISK, .SLASH] q = false)
        ∧ is_token tokens [.PLUS, .MINUS] q = false)
        ∧ is_token tokens
          [.ASSIGN, .EQ, .NOTEQ, .BIGGER, .SMALLER, .BIGGER_OR_EQ, .SMALLER_OR_EQ] q = false)
        ∧ is_token tokens [.AND, .OR] q = false := by
  induction fuel with
  | zero => intro _ _ _ _ _ h; simp [parse_binary_loop] at h
  | succ fuel ih =>
    intro left p node q h1 h
    cases hop : tokens[p]? with
    | none =>
      rw [parse_binary_loop_stop fuel _ (is_token_none _ hop)] at h
      injection h with _ hq
      subst hq
      exact ⟨h1, is_token_none _ hop⟩
    | some op =>
      by_cases ht : is_token tokens [.AND, .OR] p = true
      · rw [parse_binary_loop_step fuel _ hop ht] at h
        obtain ⟨e, q1, he, hrest⟩ := bind_eq_ok h
        exact ih _ _ _ _ (headterm_stops tokens fuel _ e q1 he) hrest
      · rw [parse_binary_loop_stop fuel _ (by simpa using ht)] at h
        injection h with _ hq
        subst hq
        exact ⟨h1, by simpa using ht⟩

/-- The levels of the ladder cover the binary operators: a token that is in
none of the four sets is no binary operator. -/
theorem is_token_binary_of_levels (tokens : List Token) (q : Nat)
    (h3 : is_token tokens [.ASTERISK, .SLASH] q = false)
    (h2 : is_token tokens [.PLUS, .MINUS] q = false)
    (h1 : is_token tokens
      [.ASSIGN, .EQ, .NOTEQ, .BIGGER, .SMALLER, .BIGGER_OR_EQ, .SMALLER_OR_EQ] q = false)
    (h0 : is_token tokens [.AND, .OR] q = false) :
    is_token tokens binary_token_types q = false := by
  cases hq : tokens[q]? with
  | none => exact is_token_none _ hq
  | some t =>
    rw [is_token_some _ hq] at h0 h1 h2 h3 ⊢
    revert h0 h1 h2 h3
    cases t.type <;> simp [binary_token_types]

/-- Where `parse_binary` returns, the cursor is on no `(`, no `[` and no
binary operator. -/
theorem parse_binary_stops (tokens : List Token) (fuel : Nat) (p : Nat) (node : AstNode)
    (q : Nat) (h : parse_binary tokens fuel p = .ok node q) :
    is_token tokens [.LPAREN] q = false ∧ is_token tokens [.LSQPAREN] q = false
      ∧ is_token tokens binary_token_types q = false := by
  cases fuel with
  | zero => simp [parse_binary] at h
  | succ fuel =>
    rw [parse_binary] at h
    obtain ⟨e, q1, he, hrest⟩ := bind_eq_ok h
    obtain ⟨⟨⟨⟨s1, s2, s3⟩, s4⟩, s5⟩, s6⟩ :=
      parse_binary_loop_stops tokens fuel _ _ _ _ (headterm_stops tokens fuel _ e q1 he) hrest
    exact ⟨s1, s2, is_token_binary_of_levels tokens q s3 s4 s5 s6⟩

/-- On a binary operator that is no `(` and no `[`, `subparse` with binary
operators not ignored is `parse_binary` from the start, one call deeper: the
call of `subparse` that follows `parse_binary` returns its node unchanged. -/
theorem subparse_binary_branch (tokens : List Token) (fuel : Nat) (expression : AstNode)
    (s q : Nat) (hcall : is_token tokens [.LPAREN] q = false)
    (hindex : is_token tokens [.LSQPAREN] q = false)
    (hbin : is_token tokens binary_token_types q = true) :
    subparse tokens (fuel + 1) expression s false q = parse_binary tokens fuel s := by
  simp only [subparse, hcall, hindex, hbin, Bool.false_eq_true, if_false, Bool.not_false,
    Bool.and_self, if_true]
  cases hpb : parse_binary tokens fuel s with
  | ok node q1 =>
    obtain ⟨s1, s2, s3⟩ := parse_binary_stops tokens fuel s node q1 hpb
    cases fuel with
    | zero => simp [parse_binary] at hpb
    | succ fuel => simp [Result.bind, subparse, s1, s2, s3]
  | thrown e q1 => rfl
  | undefined => rfl
  | out_of_fuel => rfl

/-- When `subparse`, binary operators ignored, has followed the calls and
indexations after a node and returned on a binary operator, `subparse` with
binary operators not ignored does the same calls and indexations and then is
`parse_binary` from the start, with what fuel is left. -/
theorem subparse_reaches_binary (tokens : List Token) (ft : Nat) :
    ∀ (ff : Nat) (expression : AstNode) (s p : Nat) (node : AstNode) (q : Nat),
      subparse tokens ft expression s true p = .ok node q →
      is_token tokens binary_token_types q = true → ft ≤ ff →
      ∃ n, n < ff ∧ ff ≤ n + ft
        ∧ subparse tokens ff expression s false p = parse_binary tokens n s := by
  induction ft with
  | zero => intro _ _ _ _ _ _ h; simp [subparse] at h
  | succ ft ih =>
    intro ff expression s p node q h hbin hle
    obtain ⟨ff, rfl⟩ : ∃ k, ff = k + 1 := ⟨ff - 1, by omega⟩
    have hle2 : ft ≤ ff := by omega
    obtain ⟨-, -, mcall, mindex, -⟩ := more_fuel tokens ft ff hle2
    simp only [subparse] at h
    by_cases hc : is_token tokens [.LPAREN] p = true
    · rw [if_pos hc] at h
      obtain ⟨e1, q1, h1, h2⟩ := bind_eq_ok h
      obtain ⟨n, hn1, hn2, hn3⟩ := ih ff e1 s q1 node q h2 hbin hle2
      refine ⟨n, by omega, by omega, ?_⟩
      simp only [subparse]
      rw [if_pos hc, settles_ok (mcall _ _) h1]
      exact hn3
    · rw [if_neg hc] at h
      by_cases hi : is_token tokens [.LSQPAREN] p = true
      · rw [if_pos hi] at h
        obtain ⟨e1, q1, h1, h2⟩ := bind_eq_ok h
        obtain ⟨n, hn1, hn2, hn3⟩ := ih ff e1 s q1 node q h2 hbin hle2
        refine ⟨n, by omega, by omega, ?_⟩
        simp only [subparse]
        rw [if_neg hc, if_pos hi, settles_ok (mindex _ _) h1]
        exact hn3
      · rw [if_neg hi] at h
        simp only [Bool.not_true, Bool.and_false, Bool.false_eq_true, if_false,
          Result.ok.injEq] at h
        obtain ⟨-, hq⟩ := h
        subst hq
        exact ⟨ff, by omega, by omega,
          subparse_binary_branch tokens ff expression s p (by simpa using hc)
            (by simpa using hi) hbin⟩

/-- The same for `parse_expression`: the fuel `ft` shows that the primary at
`p` with its calls and indexations ends on a binary operator; then with any
fuel `ff` from `ft` on `parse_expression(false)` is `parse_binary` from `p`,
with at most `ft` units of fuel fewer. -/
theorem parse_expression_reaches_binary (tokens : List Token) (ft ff : Nat) (p : Nat)
    (node : AstNode) (q : Nat) (h : parse_expression tokens ft true p = .ok node q)
    (hbin : is_token tokens binary_token_types q = true) (hle : ft ≤ ff) :
    ∃ n, n < ff ∧ ff ≤ n + ft
      ∧ parse_expression tokens ff false p = parse_binary tokens n p := by
  obtain ⟨ft, rfl⟩ : ∃ k, ft = k + 1 := by
    cases ft with
    | zero => simp [parse_expression] at h
    | succ k => exact ⟨k, rfl⟩
  obtain ⟨ff, rfl⟩ : ∃ k, ff = k + 1 := ⟨ff - 1, by omega⟩
  have hle2 : ft ≤ ff := by omega
  rw [parse_expression_primary] at h
  obtain ⟨e0, q0, h0, h1⟩ := bind_eq_ok h
  obtain ⟨n, hn1, hn2, hn3⟩ := subparse_reaches_binary tokens ft ff e0 p q0 node q h1 hbin hle2
  refine ⟨n, by omega, by omega, ?_⟩
  rw [parse_expression_primary, settles_ok ((more_fuel tokens ft ff hle2).2.2.2.2 p) h0]
  exact hn3

/-- C18. Let the primary at `p` with the calls and indexations after it (what
`parse_expression(true)` returns) end on a binary operator. Then
`parse_expression(false)` from `p` rewinds and is `parse_binary` from `p`: with
the same fuel both give the same node and cursor, or the same error, unless
`parse_expression(false)` is out of fuel; and every outcome of `parse_binary`
is the outcome of `parse_expression(false)` given enough fuel. The call of
`subparse` after `parse_binary` adds nothing, because `parse_binary` returns on
a token that is no `(`, no `[` and no binary operator. -/
theorem rewind_is_ladder (tokens : List Token) (fuel : Nat) (p : Nat) (node : AstNode)
    (q : Nat) (h : parse_expression tokens fuel true p = .ok node q)
    (hbin : is_token tokens binary_token_types q = true) :
    (parse_expression tokens fuel false p ≠ .out_of_fuel →
        parse_expression tokens fuel false p = parse_binary tokens fuel p)
      ∧ (∀ m, parse_binary tokens m p ≠ .out_of_fuel →
          parse_expression tokens (fuel + m) false p = parse_binary tokens m p)
      ∧ (∀ m p2 node2 q2, parse_binary tokens m p2 = .ok node2 q2 →
          is_token tokens [.LPAREN] q2 = false ∧ is_token tokens [.LSQPAREN] q2 = false
            ∧ is_token tokens binary_token_types q2 = false) := by
  refine ⟨?_, ?_, fun m p2 node2 q2 h2 => parse_binary_stops tokens m p2 node2 q2 h2⟩
  · intro hne
    obtain ⟨n, hn1, -, hn3⟩ :=
      parse_expression_reaches_binary tokens fuel fuel p node q h hbin (Nat.le_refl _)
    rcases (more_fuel tokens n fuel (by omega)).2.1 p with hs | hs
    · rw [hn3, hs] at hne
      exact absurd rfl hne
    · rw [hn3, hs]
  · intro m hne
    obtain ⟨n, hn1, hn2, hn3⟩ :=
      parse_expression_reaches_binary tokens fuel (fuel + m) p node q h hbin (by omega)
    rcases (more_fuel tokens m n (by omega)).2.1 p with hs | hs
    · exact absurd hs hne
    · rw [hn3, hs]

theorem rewind_is_ladder_witness :
    (parse_expression [⟨.DIGIT, "1", 0⟩, ⟨.PLUS, "+", 2⟩, ⟨.DIGIT, "2", 4⟩] 10 true 0
          = .ok (.LiteralNode ⟨.DIGIT, "1", 0⟩) 1
        ∧ is_token [⟨.DIGIT, "1", 0⟩, ⟨.PLUS, "+", 2⟩, ⟨.DIGIT, "2", 4⟩] binary_token_types 1
          = true
        ∧ parse_binary [⟨.DIGIT, "1", 0⟩, ⟨.PLUS, "+", 2⟩, ⟨.DIGIT, "2", 4⟩] 10 0
          ≠ .out_of_fuel)
      ∧ parse_expression [⟨.DIGIT, "1", 0⟩, ⟨.PLUS, "+", 2⟩, ⟨.DIGIT, "2", 4⟩] (10 + 10) false 0
        = parse_binary [⟨.DIGIT, "1", 0⟩, ⟨.PLUS, "+", 2⟩, ⟨.DIGIT, "2", 4⟩] 10 0 :=
  have hne : parse_binary [⟨.DIGIT, "1", 0⟩, ⟨.PLUS, "+", 2⟩, ⟨.DIGIT, "2", 4⟩] 10 0
      ≠ .out_of_fuel := by
    intro hh
    have e : parse_binary [⟨.DIGIT, "1", 0⟩, ⟨.PLUS, "+", 2⟩, ⟨.DIGIT, "2", 4⟩] 10 0
        = .ok (.BinaryOperationNode (.LiteralNode ⟨.DIGIT, "1", 0⟩) ⟨.PLUS, "+", 2⟩
            (.LiteralNode ⟨.DIGIT, "2", 4⟩)) 3 := rfl
    rw [e] at hh
    cases hh
  ⟨⟨rfl, rfl, hne⟩,
    (rewind_is_ladder [⟨.DIGIT, "1", 0⟩, ⟨.PLUS, "+", 2⟩, ⟨.DIGIT, "2", 4⟩] 10 0 _ 1 rfl
      rfl).2.1 10 hne⟩

/-! ### Failures of the parser -/

theorem identifier_message (x : String) :
    "Syntax error: " ++ ("Expected token: " ++ expected_tokens [.IDENTIFIER] ++ ", given: " ++ x)
        ++ ", at position: " ++ toString 1
      = "Syntax error: Expected token: identifier , given: " ++ x ++ ", at position: 1" := by
  have e0 : expected_tokens [.IDENTIFIER] = "identifier " := by decide
  have e1 : "Syntax error: Expected token: identifier , given: "
      = "Syntax error: " ++ ("Expected token: " ++ "identifier " ++ ", given: ") := by decide
  have e2 : toString 1 = "1" := by decide
  have e3 : ", at position: " ++ "1" = ", at position: 1" := by decide
  rw [e0, e1, e2]
  simp only [String.append_assoc]
  rw [e3]

/-- On `fn` followed by a token that is no identifier, `make_ast` throws what
`eat({IDENTIFIER})` throws at the cursor 1: the expected kind `identifier`, the
entry of `token_types_names` for the kind found, and the position 1. No node is
returned. -/
theorem missing_function_name (tokens : List Token) (f t : Token) (fuel : Nat)
    (h0 : tokens[0]? = some f) (hf : f.type = .FUNCTION) (h1 : tokens[1]? = some t)
    (ht : t.type ≠ .IDENTIFIER) :
    make_ast tokens (fuel + 4)
      = .thrown (.runtime_error ("Syntax error: Expected token: identifier , given: "
          ++ token_types_names t.type ++ ", at position: 1")) 1 := by
  have hlen : 0 < tokens.length := lt_length_of_getElem? h0
  have hfn : is_token tokens [.FUNCTION] 0 = true := by
    rw [is_token_some _ h0]; simp [hf]
  have hmem : t.type ∉ [TokenType.IDENTIFIER] := by simpa using ht
  have heat : eat tokens [.FUNCTION] 0 = .ok f 1 := eat_mem h0 (by simp [hf])
  simp only [make_ast, make_ast_loop, hlen, if_true, parse_expression, hfn, parse_function,
    heat, Result.bind, parse_identifier, eat_not_mem h1 hmem, identifier_message]

/-- C11. On the tokens `fn and`, `make_ast` throws a `SyntaxError` that names
the expected kind `identifier` and the position 1 and returns no node, but its
`given:` part is empty: the kind found is not named, `token_types_names`
having no entry for `AND`. On `fn (` the kind found is named. -/
theorem fn_and_kind_not_named :
    make_ast [⟨.FUNCTION, "fn", 0⟩, ⟨.AND, "and", 3⟩] 4
        = .thrown (.runtime_error
            "Syntax error: Expected token: identifier , given: , at position: 1") 1
      ∧ make_ast [⟨.FUNCTION, "fn", 0⟩, ⟨.LPAREN, "(", 3⟩] 4
        = .thrown (.runtime_error
            "Syntax error: Expected token: identifier , given: (, at position: 1") 1 :=
  ⟨rfl, rfl⟩

/-- When the current token is of none of the kinds `parse_expression` tests
for, or there is no current token, `parse_expression` reads its local
`expression` without having assigned it: the behaviour is undefined, whatever
the flag and the fuel. -/
theorem dispatch_failure (tokens : List Token) (fuel : Nat) (ig : Bool) (p : Nat)
    (h : ∀ t, tokens[p]? = some t →
      t.type ∉ [TokenType.FUNCTION, .NIL, .TRUE, .FALSE, .DIGIT, .STRING, .IDENTIFIER, .LPAREN,
        .RETURN, .PRINT, .WAIT, .LSQPAREN, .BEGIN, .WHILE, .TYPE, .IF]) :
    parse_expression tokens (fuel + 1) ig p = .undefined := by
  have hall : ∀ types : List TokenType,
      (∀ k ∈ types, k ∈ [TokenType.FUNCTION, .NIL, .TRUE, .FALSE, .DIGIT, .STRING, .IDENTIFIER,
        .LPAREN, .RETURN, .PRINT, .WAIT, .LSQPAREN, .BEGIN, .WHILE, .TYPE, .IF]) →
      is_token tokens types p = false := by
    intro types hsub
    cases hp : tokens[p]? with
    | none => exact is_token_none _ hp
    | some t =>
      rw [is_token_some _ hp]
      simp only [decide_eq_false_iff_not]
      exact fun hm => h t hp (hsub _ hm)
  rw [parse_expression_primary]
  simp only [primary, hall [.FUNCTION] (by decide), hall literal_token_types (by decide),
    hall [.IDENTIFIER] (by decide), hall [.LPAREN] (by decide),
    hall unary_token_types (by decide), hall [.LSQPAREN] (by decide),
    hall [.BEGIN] (by decide), hall [.WHILE] (by decide), hall [.TYPE] (by decide),
    hall [.IF] (by decide), Bool.false_eq_true, if_false, Result.bind]

/-- C12. On the single token `)`, and on no tokens at all, `parse_expression`
does not throw "Cannot parse expression": no branch assigns `expression`, and
the test `if (expression)` that guards the throw reads it uninitialised, which
is undefined behaviour. -/
theorem cannot_parse_not_thrown :
    parse_expression [⟨.RPAREN, ")", 0⟩] 1 false 0 = .undefined
      ∧ parse_expression [⟨.RPAREN, ")", 0⟩] 1 true 0 = .undefined
      ∧ parse_expression [] 1 false 0 = .undefined
      ∧ ¬ ∃ what q, parse_expression [⟨.RPAREN, ")", 0⟩] 1 false 0
          = .thrown (.runtime_error what) q := by
  refine ⟨rfl, rfl, rfl, ?_⟩
  rintro ⟨what, q, h⟩
  have h2 : (Result.undefined : Result AstNode) = .thrown (.runtime_error what) q := h
  cases h2

/-- C19. On the single token `)` there is no progress to speak of: with any
fuel and either flag `parse_expression` reads its local `expression`
uninitialised, and so does `make_ast` in the first turn of its loop. What the
call returns, and where the cursor is then, is left undefined; in particular
nothing makes the cursor advance. -/
theorem no_progress_on_rparen :
    (∀ (fuel : Nat) (ig : Bool),
        parse_expression [⟨.RPAREN, ")", 0⟩] (fuel + 1) ig 0 = .undefined)
      ∧ (∀ fuel : Nat, make_ast [⟨.RPAREN, ")", 0⟩] (fuel + 2) = .undefined) := by
  have hpe : ∀ (fuel : Nat) (ig : Bool),
      parse_expression [⟨.RPAREN, ")", 0⟩] (fuel + 1) ig 0 = .undefined := by
    intro fuel ig
    apply dispatch_failure
    intro t ht
    simp only [List.getElem?_cons_zero, Option.some.injEq] at ht
    subst ht
    decide
  refine ⟨hpe, ?_⟩
  intro fuel
  simp only [make_ast, make_ast_loop, List.length_singleton, Nat.lt_one_iff, if_true, hpe,
    Result.bind]

end Femira
